import Mathlib

/-!
Verification development for the Dantotsu comment-mirror sync scripts
(`dantotsu_sync.py`, variant 1, and `dantotsu_sync_new.py`, variant 2).

The scripts are shallowly embedded: Python dict values that can appear in a
row are modelled by `PyVal`; the CSV store is a list of rows; network I/O is
replaced by explicit response lists / oracles; `time.sleep` is recorded in a
trace; Python exceptions (`int()` conversion errors, `KeyError`) are modelled
with `Except String`.
-/

/-- A Python value as it can appear in a comment dict or a CSV row dict:
`None`, an `int`, a `str`, or a `bool`.  (These are the only value shapes the
scripts put into rows: JSON scalars from the API and strings read back from
the CSV.) -/
inductive PyVal where
  | none : PyVal
  | int : Int → PyVal
  | str : String → PyVal
  | bool : Bool → PyVal
deriving DecidableEq, Repr

/-- Decimal digit character for `n < 10` (only ever applied to `n % 10`). -/
def digitChar : Nat → Char
  | 0 => '0' | 1 => '1' | 2 => '2' | 3 => '3' | 4 => '4'
  | 5 => '5' | 6 => '6' | 7 => '7' | 8 => '8' | _ => '9'

/-- Numeric value of a decimal digit character. -/
def charDigit (c : Char) : Nat := c.toNat - 48

/-- ASCII decimal digit test (models both Python's `str.isdigit` and the
digits accepted by `int()` on the store's alphabet). -/
def isDigitChar (c : Char) : Bool := 48 ≤ c.toNat && c.toNat ≤ 57

/-- Whitespace stripped by Python's `int(str)` conversion. -/
def isPySpace (c : Char) : Bool :=
  c.toNat == 32 || c.toNat == 9 || c.toNat == 10 ||
  c.toNat == 13 || c.toNat == 11 || c.toNat == 12

/-- Fuel-driven digit expansion (structural recursion so that the kernel
can evaluate it; the fuel is enough whenever `n ≤ fuel`). -/
def natDigitsAux : Nat → Nat → List Char
  | 0, n => [digitChar n]
  | fuel + 1, n =>
    if n < 10 then [digitChar n]
    else natDigitsAux fuel (n / 10) ++ [digitChar (n % 10)]

/-- Decimal digits of `n`, most significant first (models `str(n)` for a
nonnegative Python int). -/
def natDigits (n : Nat) : List Char := natDigitsAux n n

/-- Value of a digit string, most significant first. -/
def digitsVal (l : List Char) : Nat := l.foldl (fun a c => 10 * a + charDigit c) 0

/-- Models Python `str(i)` for an int. -/
def intToStr (i : Int) : String :=
  if i < 0 then String.mk ('-' :: natDigits i.natAbs) else String.mk (natDigits i.toNat)

/-- Strip leading and trailing whitespace (Python `int()` ignores it). -/
def stripChars (l : List Char) : List Char :=
  ((l.dropWhile isPySpace).reverse.dropWhile isPySpace).reverse

/-- Parse an optionally signed decimal numeral with no inner whitespace. -/
def parseSigned (l : List Char) : Option Int :=
  match l with
  | [] => Option.none
  | c :: ds =>
    if c = '-' then
      if ds ≠ [] ∧ ds.all isDigitChar then some (-(digitsVal ds : Int)) else Option.none
    else if c = '+' then
      if ds ≠ [] ∧ ds.all isDigitChar then some ((digitsVal ds : Int)) else Option.none
    else
      if l.all isDigitChar then some ((digitsVal l : Int)) else Option.none

/-- Models Python `int(s)` on the strings this system handles: optional
surrounding whitespace, optional sign, then decimal digits; `none` models the
`ValueError` raised otherwise.  (Exotic CPython inputs such as underscore
separators or non-ASCII digits do not occur in this system's data.) -/
def pyIntParse (s : String) : Option Int := parseSigned (stripChars s.data)

/-- Models Python `str(v)` (as used when the scripts compare row fields with
`str(a) != str(b)`). -/
def pyStrOf : PyVal → String
  | .none => "None"
  | .int i => intToStr i
  | .str s => s
  | .bool b => if b then "True" else "False"

/-- Models what Python's `csv` writer puts in a cell for value `v`:
`None` is written as the empty string, every other value as `str(v)`. -/
def cellOf : PyVal → String
  | .none => ""
  | v => pyStrOf v

/-- Models Python `int(v)` on a dict value: ints pass through, bools coerce
to 0/1, strings are parsed, `None` (or a missing key) raises. -/
def pyToInt : PyVal → Except String Int
  | .int i => .ok i
  | .bool b => .ok (if b then 1 else 0)
  | .str s => match pyIntParse s with
      | some i => .ok i
      | Option.none => .error "ValueError"
  | .none => .error "TypeError"

/-- Models Python `str.isdigit` for the ASCII strings in the store. -/
def strIsDigit (s : String) : Bool := !s.data.isEmpty && s.data.all isDigitChar

/-- `int(s)` after an `isdigit` check: the code's way of reading an id cell. -/
def digitParse (s : String) : Option Nat :=
  if strIsDigit s then some (digitsVal s.data) else Option.none

-- ### Round-trip lemmas for the decimal rendering

theorem natDigitsAux_irrel (n : Nat) :
    ∀ f1 f2, n ≤ f1 → n ≤ f2 → natDigitsAux f1 n = natDigitsAux f2 n := by
  induction n using Nat.strong_induction_on with
  | _ n ih =>
    intro f1 f2 h1 h2
    by_cases hn : n < 10
    · cases f1 with
      | zero => cases f2 with
        | zero => rfl
        | succ g2 => simp only [natDigitsAux, if_pos hn]
      | succ g1 => cases f2 with
        | zero => simp only [natDigitsAux, if_pos hn]
        | succ g2 => simp only [natDigitsAux, if_pos hn]
    · have h10 : 10 ≤ n := by omega
      cases f1 with
      | zero => omega
      | succ g1 => cases f2 with
        | zero => omega
        | succ g2 =>
          simp only [natDigitsAux, if_neg hn]
          have hlt : n / 10 < n := Nat.div_lt_self (by omega) (by omega)
          rw [ih _ hlt g1 g2 (by omega) (by omega)]

theorem natDigits_eq (n : Nat) :
    natDigits n = if n < 10 then [digitChar n] else natDigits (n / 10) ++ [digitChar (n % 10)] := by
  by_cases hn : n < 10
  · rw [if_pos hn]
    unfold natDigits
    cases n with
    | zero => rfl
    | succ m =>
      show (if m + 1 < 10 then [digitChar (m + 1)]
            else natDigitsAux m ((m + 1) / 10) ++ [digitChar ((m + 1) % 10)]) = [digitChar (m + 1)]
      rw [if_pos hn]
  · rw [if_neg hn]
    unfold natDigits
    cases n with
    | zero => omega
    | succ m =>
      show (if m + 1 < 10 then [digitChar (m + 1)]
            else natDigitsAux m ((m + 1) / 10) ++ [digitChar ((m + 1) % 10)]) =
        natDigitsAux ((m + 1) / 10) ((m + 1) / 10) ++ [digitChar ((m + 1) % 10)]
      rw [if_neg hn]
      rw [natDigitsAux_irrel ((m + 1) / 10) m ((m + 1) / 10) (by omega) (by omega)]

theorem charDigit_digitChar {n : Nat} (h : n < 10) : charDigit (digitChar n) = n := by
  interval_cases n <;> decide

theorem isDigitChar_digitChar {n : Nat} (h : n < 10) : isDigitChar (digitChar n) = true := by
  interval_cases n <;> decide

theorem natDigits_ne_nil (n : Nat) : natDigits n ≠ [] := by
  rw [natDigits_eq]
  split
  · simp
  · simp

theorem natDigits_all_digit (n : Nat) : (natDigits n).all isDigitChar = true := by
  induction n using Nat.strong_induction_on with
  | _ n ih =>
    rw [natDigits_eq]
    split
    · simp [isDigitChar_digitChar ‹n < 10›]
    · rename_i h
      have h10 : 10 ≤ n := by omega
      have hlt : n / 10 < n := Nat.div_lt_self (by omega) (by omega)
      simp only [List.all_append, Bool.and_eq_true]
      refine ⟨ih _ hlt, ?_⟩
      simp [isDigitChar_digitChar (Nat.mod_lt n (by omega))]

theorem foldl_natDigits (n : Nat) :
    ∀ a : Nat, (natDigits n).foldl (fun a c => 10 * a + charDigit c) a =
      a * 10 ^ (natDigits n).length + n := by
  induction n using Nat.strong_induction_on with
  | _ n ih =>
    intro a
    rw [natDigits_eq]
    split
    · rename_i h
      simp [charDigit_digitChar h]
      omega
    · rename_i h
      have hlt : n / 10 < n := Nat.div_lt_self (by omega) (by omega)
      rw [List.foldl_append, ih _ hlt a]
      simp only [List.foldl_cons, List.foldl_nil, List.length_append, List.length_cons,
        List.length_nil]
      rw [charDigit_digitChar (Nat.mod_lt n (by omega))]
      have : 10 ^ ((natDigits (n / 10)).length + (0 + 1)) =
          10 ^ (natDigits (n / 10)).length * 10 := by ring
      rw [this]
      have hmod := Nat.div_add_mod n 10
      ring_nf
      omega

theorem digitsVal_natDigits (n : Nat) : digitsVal (natDigits n) = n := by
  have := foldl_natDigits n 0
  simpa [digitsVal] using this

theorem dropWhile_eq_self_of_all {l : List Char} (h : ∀ c ∈ l, isPySpace c = false) :
    l.dropWhile isPySpace = l := by
  cases l with
  | nil => rfl
  | cons a l => simp [List.dropWhile_cons, h a (by simp)]

theorem isPySpace_of_digit {c : Char} (h : isDigitChar c = true) : isPySpace c = false := by
  simp only [isDigitChar, Bool.and_eq_true, decide_eq_true_eq] at h
  simp only [isPySpace, Bool.or_eq_false_iff, beq_eq_false_iff_ne, ne_eq]
  omega

theorem stripChars_of_no_space {l : List Char} (h : ∀ c ∈ l, isPySpace c = false) :
    stripChars l = l := by
  unfold stripChars
  rw [dropWhile_eq_self_of_all h,
    dropWhile_eq_self_of_all (fun c hc => h c (List.mem_reverse.mp hc)),
    List.reverse_reverse]

theorem parseSigned_digits {l : List Char} (hne : l ≠ []) (h : l.all isDigitChar = true) :
    parseSigned l = some ((digitsVal l : Int)) := by
  cases l with
  | nil => simp at hne
  | cons c ds =>
    simp only [List.all_cons, Bool.and_eq_true] at h
    have h45 : ¬ (c = '-') := by
      intro e; subst e; exact absurd h.1 (by decide)
    have h43 : ¬ (c = '+') := by
      intro e; subst e; exact absurd h.1 (by decide)
    simp [parseSigned, h45, h43, h.1, h.2]

theorem parseSigned_neg_digits {ds : List Char} (hne : ds ≠ []) (h : ds.all isDigitChar = true) :
    parseSigned ('-' :: ds) = some (-(digitsVal ds : Int)) := by
  simp [parseSigned, hne, h]

theorem pyIntParse_digits {l : List Char} (hne : l ≠ []) (h : l.all isDigitChar = true) :
    pyIntParse (String.mk l) = some ((digitsVal l : Int)) := by
  show parseSigned (stripChars l) = _
  rw [stripChars_of_no_space (fun c hc => isPySpace_of_digit (by
    rw [List.all_eq_true] at h; exact h c hc))]
  exact parseSigned_digits hne h

theorem pyIntParse_intToStr (i : Int) : pyIntParse (intToStr i) = some i := by
  unfold intToStr
  split
  · rename_i hneg
    show parseSigned (stripChars ('-' :: natDigits i.natAbs)) = some i
    rw [stripChars_of_no_space (by
      intro c hc
      rcases List.mem_cons.mp hc with hc | hc
      · subst hc; decide
      · exact isPySpace_of_digit (by
          have hd := natDigits_all_digit i.natAbs
          rw [List.all_eq_true] at hd; exact hd c hc))]
    rw [parseSigned_neg_digits (natDigits_ne_nil _) (natDigits_all_digit _)]
    rw [digitsVal_natDigits]
    have habs : ((i.natAbs : Int)) = -i := by omega
    rw [habs, neg_neg]
  · rename_i hpos
    rw [pyIntParse_digits (natDigits_ne_nil _) (natDigits_all_digit _)]
    rw [digitsVal_natDigits]
    have : ((i.toNat : Int)) = i := by omega
    rw [this]

theorem pyIntParse_of_strIsDigit {s : String} (h : strIsDigit s = true) :
    pyIntParse s = some ((digitsVal s.data : Int)) := by
  simp only [strIsDigit, Bool.and_eq_true, Bool.not_eq_true'] at h
  have hne : s.data ≠ [] := by
    intro e
    rw [e] at h
    simp at h
  obtain ⟨h1, h2⟩ := h
  show parseSigned (stripChars s.data) = _
  rw [stripChars_of_no_space (fun c hc => isPySpace_of_digit (by
    rw [List.all_eq_true] at h2; exact h2 c hc))]
  exact parseSigned_digits hne h2

theorem digitParse_pyIntParse {s : String} {n : Nat} (h : digitParse s = some n) :
    pyIntParse s = some ((n : Int)) := by
  unfold digitParse at h
  split at h
  · rename_i hd
    rw [pyIntParse_of_strIsDigit hd]
    simp only [Option.some.injEq] at h
    rw [h]
  · simp at h

theorem strIsDigit_natDigits (n : Nat) : strIsDigit (String.mk (natDigits n)) = true := by
  show (!(natDigits n).isEmpty && (natDigits n).all isDigitChar) = true
  have h1 : (natDigits n).isEmpty = false := by
    cases hd : natDigits n with
    | nil => exact absurd hd (natDigits_ne_nil n)
    | cons a l => rfl
  rw [h1, natDigits_all_digit]
  rfl

theorem digitParse_intToStr_nonneg {k : Int} (h : 0 ≤ k) :
    digitParse (intToStr k) = some k.toNat := by
  unfold intToStr
  rw [if_neg (by omega)]
  unfold digitParse
  rw [if_pos (strIsDigit_natDigits k.toNat)]
  show some (digitsVal (natDigits k.toNat)) = _
  rw [digitsVal_natDigits]

theorem digitParse_intToStr_neg {k : Int} (h : k < 0) :
    digitParse (intToStr k) = Option.none := by
  unfold intToStr
  rw [if_pos h]
  unfold digitParse
  rw [if_neg]
  intro hcond
  have : ('-' :: natDigits k.natAbs).all isDigitChar = true := by
    revert hcond
    show (!('-' :: natDigits k.natAbs).isEmpty && ('-' :: natDigits k.natAbs).all isDigitChar) = true → _
    intro hcond
    exact (Bool.and_eq_true _ _ |>.mp hcond).2
  rw [List.all_cons] at this
  exact absurd (Bool.and_eq_true _ _ |>.mp this).1 (by decide)

-- ### The record schema (`DantotsuManager.field_names`, identical in both variants)

/-- One CSV column / dict key, in the fixed schema of `self.field_names`. -/
inductive Col where
  | comment_id | user_id | media_id | parent_comment_id | content
  | timestamp | deleted | tag | upvotes | downvotes
  | user_vote_type | username | profile_picture_url
  | is_mod | is_admin | reply_count | total_votes | changes
deriving DecidableEq, Repr

/-- The string name of a field, as it appears in `self.field_names`. -/
def Col.name : Col → String
  | .comment_id => "comment_id"
  | .user_id => "user_id"
  | .media_id => "media_id"
  | .parent_comment_id => "parent_comment_id"
  | .content => "content"
  | .timestamp => "timestamp"
  | .deleted => "deleted"
  | .tag => "tag"
  | .upvotes => "upvotes"
  | .downvotes => "downvotes"
  | .user_vote_type => "user_vote_type"
  | .username => "username"
  | .profile_picture_url => "profile_picture_url"
  | .is_mod => "is_mod"
  | .is_admin => "is_admin"
  | .reply_count => "reply_count"
  | .total_votes => "total_votes"
  | .changes => "changes"

/-- `self.field_names`, in source order (`changes` last). -/
def field_names : List Col :=
  [.comment_id, .user_id, .media_id, .parent_comment_id, .content,
   .timestamp, .deleted, .tag, .upvotes, .downvotes,
   .user_vote_type, .username, .profile_picture_url,
   .is_mod, .is_admin, .reply_count, .total_votes, .changes]

/-- One row dict: a value for each of the 18 schema fields.  Rows read back
from the CSV have `.str` values in every field; rows freshly built by
`format_row` mix ints, strings and whatever raw values upstream sent. -/
structure Row where
  comment_id : PyVal
  user_id : PyVal
  media_id : PyVal
  parent_comment_id : PyVal
  content : PyVal
  timestamp : PyVal
  deleted : PyVal
  tag : PyVal
  upvotes : PyVal
  downvotes : PyVal
  user_vote_type : PyVal
  username : PyVal
  profile_picture_url : PyVal
  is_mod : PyVal
  is_admin : PyVal
  reply_count : PyVal
  total_votes : PyVal
  changes : PyVal
deriving DecidableEq, Repr

/-- `row[k]` (every row carries all 18 keys, so `row.get(k, '')` never
falls back to its default). -/
def getField (r : Row) : Col → PyVal
  | .comment_id => r.comment_id
  | .user_id => r.user_id
  | .media_id => r.media_id
  | .parent_comment_id => r.parent_comment_id
  | .content => r.content
  | .timestamp => r.timestamp
  | .deleted => r.deleted
  | .tag => r.tag
  | .upvotes => r.upvotes
  | .downvotes => r.downvotes
  | .user_vote_type => r.user_vote_type
  | .username => r.username
  | .profile_picture_url => r.profile_picture_url
  | .is_mod => r.is_mod
  | .is_admin => r.is_admin
  | .reply_count => r.reply_count
  | .total_votes => r.total_votes
  | .changes => r.changes

/-- A raw upstream comment dict (the JSON object the API returns).  `none`
models a key that is absent from the dict — distinct from a key that is
present with value `null` (`some PyVal.none`). -/
structure RawComment where
  comment_id : Option PyVal := Option.none
  user_id : Option PyVal := Option.none
  media_id : Option PyVal := Option.none
  parent_comment_id : Option PyVal := Option.none
  content : Option PyVal := Option.none
  timestamp : Option PyVal := Option.none
  deleted : Option PyVal := Option.none
  tag : Option PyVal := Option.none
  upvotes : Option PyVal := Option.none
  downvotes : Option PyVal := Option.none
  user_vote_type : Option PyVal := Option.none
  username : Option PyVal := Option.none
  profile_picture_url : Option PyVal := Option.none
  is_mod : Option PyVal := Option.none
  is_admin : Option PyVal := Option.none
  reply_count : Option PyVal := Option.none
  total_votes : Option PyVal := Option.none
deriving DecidableEq, Repr

/-- `content` cleaning in `format_row`:
`str(...).replace('\t', ' ').replace('\n', ' ')`. -/
def cleanContent (s : String) : String :=
  String.mk (s.data.map (fun c => if c = '\t' ∨ c = '\n' then ' ' else c))

/-- `DantotsuManager.format_row` (identical in both variants): maps a raw
upstream comment to a row dict.  The `int(...)` conversions on the counter
fields can raise (modelled by `Except.error`); every other field is either
passed through raw, defaulted, or `str()`-cleaned.  Note that `total_votes`
is `int(c.get('total_votes', 0))`: copied from upstream, not recomputed. -/
def format_row (c : RawComment) : Except String Row := do
  let upv ← pyToInt (c.upvotes.getD (.int 0))
  let dnv ← pyToInt (c.downvotes.getD (.int 0))
  let rpc ← pyToInt (c.reply_count.getD (.int 0))
  let ttv ← pyToInt (c.total_votes.getD (.int 0))
  pure {
    comment_id := c.comment_id.getD .none
    user_id := c.user_id.getD .none
    media_id := c.media_id.getD .none
    parent_comment_id := c.parent_comment_id.getD (.str "NULL")
    content := .str (cleanContent (pyStrOf (c.content.getD (.str ""))))
    timestamp := c.timestamp.getD .none
    deleted := c.deleted.getD .none
    tag := c.tag.getD .none
    upvotes := .int upv
    downvotes := .int dnv
    user_vote_type := c.user_vote_type.getD .none
    username := c.username.getD (.str "NULL")
    profile_picture_url := c.profile_picture_url.getD (.str "NULL")
    is_mod := c.is_mod.getD .none
    is_admin := c.is_admin.getD .none
    reply_count := .int rpc
    total_votes := .int ttv
    changes := .str ""
  }

/-- What `csv.DictWriter.writerow` leaves on disk for a row: every value is
rendered to its cell string (`None` → empty cell, others → `str(v)`). -/
def toStrRow (r : Row) : Row where
  comment_id := .str (cellOf r.comment_id)
  user_id := .str (cellOf r.user_id)
  media_id := .str (cellOf r.media_id)
  parent_comment_id := .str (cellOf r.parent_comment_id)
  content := .str (cellOf r.content)
  timestamp := .str (cellOf r.timestamp)
  deleted := .str (cellOf r.deleted)
  tag := .str (cellOf r.tag)
  upvotes := .str (cellOf r.upvotes)
  downvotes := .str (cellOf r.downvotes)
  user_vote_type := .str (cellOf r.user_vote_type)
  username := .str (cellOf r.username)
  profile_picture_url := .str (cellOf r.profile_picture_url)
  is_mod := .str (cellOf r.is_mod)
  is_admin := .str (cellOf r.is_admin)
  reply_count := .str (cellOf r.reply_count)
  total_votes := .str (cellOf r.total_votes)
  changes := .str (cellOf r.changes)

/-- The on-disk store (`dantotsu_global_db.csv`): the list of data rows
below the header, in file order. -/
def File : Type := List Row

/-- The blank row used when a row dict misses keys: `csv.DictWriter`'s
`restval` default is the empty string. -/
def blankRow : Row where
  comment_id := .str ""
  user_id := .str ""
  media_id := .str ""
  parent_comment_id := .str ""
  content := .str ""
  timestamp := .str ""
  deleted := .str ""
  tag := .str ""
  upvotes := .str ""
  downvotes := .str ""
  user_vote_type := .str ""
  username := .str ""
  profile_picture_url := .str ""
  is_mod := .str ""
  is_admin := .str ""
  reply_count := .str ""
  total_votes := .str ""
  changes := .str ""

/-- The sentinel row `{'media_id': m_id, 'content': 'EMPTY_MARKER'}` written
by `process_media_list` for a target with zero records; every other cell is
the `restval` empty string. -/
def emptyMarkerRow (m : Int) : Row :=
  { blankRow with media_id := .str (intToStr m), content := .str "EMPTY_MARKER" }

-- ### PagedFetcher: `fetch_media_comments` (identical logic in both variants)

/-- The outcome of one HTTP request in `fetch_media_comments` /
`fetch_user_comments`: HTTP 404, HTTP 429, any other non-200 status, a
connection/timeout exception raised by `requests.get` (caught by the
`except` clause), or a 200 response whose JSON carries a comment batch. -/
inductive ApiResponse where
  | notFound : ApiResponse
  | rateLimited : ApiResponse
  | otherStatus : ApiResponse
  | raised : ApiResponse
  | ok : List RawComment → ApiResponse
deriving Repr

/-- One observable step of the fetch loop: an HTTP request for a given page
number, or a `time.sleep` of the given number of milliseconds. -/
inductive FetchEv where
  | request : Nat → FetchEv
  | sleep : Nat → FetchEv
deriving DecidableEq, Repr

/-- The `while True` page loop of `fetch_media_comments`, driven by the
sequence of upstream responses (one response consumed per request).  Returns
the accumulated comments together with the request/sleep trace.  `page` is
the next page to request and `acc` the comments collected so far:
404 breaks; 429 sleeps 30s and retries the same page; any other non-200
breaks; an empty batch breaks; a non-empty batch is appended, the page
number advances, and the loop sleeps 0.1s.  A requests exception is caught
and breaks the loop.  If the response list is exhausted the loop has
consumed the whole modelled upstream and we return what was collected. -/
def fetchGo : List ApiResponse → Nat → List RawComment → List RawComment × List FetchEv
  | [], _, acc => (acc, [])
  | r :: rest, page, acc =>
    match r with
    | .notFound => (acc, [.request page])
    | .rateLimited =>
      let out := fetchGo rest page acc
      (out.1, .request page :: .sleep 30000 :: out.2)
    | .otherStatus => (acc, [.request page])
    | .raised => (acc, [.request page])
    | .ok [] => (acc, [.request page])
    | .ok (c :: cs) =>
      let out := fetchGo rest (page + 1) (acc ++ (c :: cs))
      (out.1, .request page :: .sleep 100 :: out.2)

/-- `DantotsuManager.fetch_media_comments(m_id)`: starts at page 1 with an
empty comment list. -/
def fetch_media_comments (responses : List ApiResponse) : List RawComment :=
  (fetchGo responses 1 []).1

/-- The request/sleep trace of a `fetch_media_comments` run. -/
def fetchTrace (responses : List ApiResponse) : List FetchEv :=
  (fetchGo responses 1 []).2

-- ### Store scan: `get_existing_data` (identical logic in both variants)

/-- The id a row binds in the store, per the scripts' own reading
(`c_id.isdigit()` then `int(c_id)`): defined only when the `comment_id`
cell is a pure digit string. -/
def rowId (r : Row) : Option Nat :=
  match getField r .comment_id with
  | .str s => digitParse s
  | _ => Option.none

/-- The media id a row contributes to `captured_media`: the code requires
`m_id.isdigit()` and `row.get('content') != 'EMPTY_MARKER'`. -/
def rowMediaCaptured (r : Row) : Option Nat :=
  match getField r .media_id with
  | .str s =>
    if getField r .content ≠ PyVal.str "EMPTY_MARKER" then digitParse s else Option.none
  | _ => Option.none

/-- `captured_media` of `get_existing_data`: media ids of all rows whose
`media_id` cell is a digit string and whose `content` is not the
`EMPTY_MARKER` sentinel.  (Membership models the Python set.) -/
def captured_media (file : List Row) : List Nat := file.filterMap rowMediaCaptured

/-- `captured_comments` of `get_existing_data`: comment ids of all rows
whose `comment_id` cell is a digit string. -/
def captured_comments (file : List Row) : List Nat := file.filterMap rowId

-- ### Association-list model of the Python dicts keyed by comment id

/-- `d[k]` lookup. -/
def lookupAssoc (m : List (Int × Row)) (k : Int) : Option Row :=
  match m with
  | [] => Option.none
  | (k1, v1) :: rest => if k = k1 then some v1 else lookupAssoc rest k

/-- `d[k] = v` assignment: replaces in place if the key exists (Python dicts
keep the original insertion position on overwrite), else appends. -/
def updateAssoc (m : List (Int × Row)) (k : Int) (v : Row) : List (Int × Row) :=
  match m with
  | [] => [(k, v)]
  | (k1, v1) :: rest => if k = k1 then (k, v) :: rest else (k1, v1) :: updateAssoc rest k v

/-- The `all_rows` load of `run_daily_sync` (both variants):
`all_rows[int(row['comment_id'])] = row` for every row of the existing CSV,
in file order.  `int()` on a blank or non-numeric cell raises, which aborts
the sync (modelled by `Except.error`). -/
def loadStep (m : List (Int × Row)) (r : Row) : Except String (List (Int × Row)) := do
  let k ← pyToInt (getField r .comment_id)
  pure (updateAssoc m k r)

/-- See `loadStep`: the fold over the file's rows in order. -/
def loadAllRows (file : List Row) : Except String (List (Int × Row)) :=
  file.foldlM loadStep []

-- ### ChangeDetector and the daily-sync merge

/-- Classification of a refetched record against the store. -/
inductive ChangeKind where
  | fresh : ChangeKind
  | updated : ChangeKind
  | unchanged : ChangeKind
deriving DecidableEq, Repr

/-- Variant 1's changed-field list:
`[k for k in self.field_names[:-1] if str(all_rows[cid].get(k, '')) != str(row.get(k, ''))]`.
Note `field_names[:-1]` drops only `changes`: the key `comment_id` IS
compared. -/
def changedFieldsV1 (old row : Row) : List Col :=
  field_names.dropLast.filter (fun k => pyStrOf (getField old k) != pyStrOf (getField row k))

/-- Variant 1's classification of a refetched row against its stored
counterpart (`run_daily_sync`, `dantotsu_sync.py` lines 242-250): if any
compared field differs, the row replaces the stored one with `changes` set
to the comma-joined changed field names; otherwise the stored row is kept. -/
def classifyV1 (old row : Row) : Row × ChangeKind :=
  let changes := changedFieldsV1 old row
  if changes.isEmpty then (old, .unchanged)
  else ({ row with changes := .str (String.intercalate "," (changes.map Col.name)) }, .updated)

/-- The fields variant 2 skips in its comparison loop:
`if key in ['comment_id', 'content', 'changes']: continue`. -/
def skipColsV2 : List Col := [.comment_id, .content, .changes]

/-- Variant 2's classification (`run_daily_sync`, `dantotsu_sync_new.py`
lines 274-300): `content` is compared first with a plain `!=` and, when it
changed, the PREVIOUS content is stored in `changes`; the remaining fields
except `comment_id`, `content` and `changes` are compared via `str()`.  If
nothing differs the stored row is kept.  When only non-content fields
changed, `changes` keeps the empty string `format_row` put there. -/
def classifyV2 (old row : Row) : Row × ChangeKind :=
  let contentChanged := getField old .content ≠ getField row .content
  let row1 := if contentChanged then { row with changes := getField old .content } else row
  let otherChanged := (field_names.filter (fun k => !(skipColsV2.contains k))).any
    (fun k => pyStrOf (getField old k) != pyStrOf (getField row1 k))
  if contentChanged ∨ otherChanged then (row1, .updated) else (old, .unchanged)

/-- One iteration of the per-comment loop of `run_daily_sync`, shared shape
of both variants (which differ only in the classification): compute
`cid = int(c['comment_id'])` (KeyError/ValueError abort), `row =
format_row(c)`, then insert as NEW, replace as updated, or keep the stored
row.  The state is `(all_rows, new_found, updated_found)`. -/
def dailyStep (classify : Row → Row → Row × ChangeKind)
    (st : List (Int × Row) × Nat × Nat) (c : RawComment) :
    Except String (List (Int × Row) × Nat × Nat) := do
  let cidv ← match c.comment_id with
    | some v => Except.ok v
    | Option.none => Except.error "KeyError"
  let cid ← pyToInt cidv
  let row ← format_row c
  match lookupAssoc st.1 cid with
  | some old =>
    match classify old row with
    | (r, .updated) => pure (updateAssoc st.1 cid r, st.2.1, st.2.2 + 1)
    | (_, _) => pure st
  | Option.none =>
    pure (updateAssoc st.1 cid { row with changes := PyVal.str "NEW" }, st.2.1 + 1, st.2.2)

/-- The whole merge loop of `run_daily_sync` over the flat list of fetched
comments (the per-media fetches concatenated in processing order). -/
def dailyMerge (classify : Row → Row → Row × ChangeKind)
    (rows0 : List (Int × Row)) (cs : List RawComment) :
    Except String (List (Int × Row) × Nat × Nat) :=
  cs.foldlM (dailyStep classify) (rows0, 0, 0)

/-- `run_daily_sync` of variant 1 as a store transformer: load `all_rows`
from the existing file, merge every fetched comment, and write all rows
back (each value rendered to its CSV cell).  Returns the new file together
with `(new_found, updated_found)`.  The fetching itself is abstracted into
the list `cs` of comments upstream returned for the active media. -/
def dailySyncV1 (file : List Row) (cs : List RawComment) :
    Except String (List Row × Nat × Nat) := do
  let rows0 ← loadAllRows file
  let st ← dailyMerge classifyV1 rows0 cs
  pure (st.1.map (fun e => toStrRow e.2), st.2.1, st.2.2)

/-- `run_daily_sync` of variant 2 as a store transformer (same shape,
variant 2's classification). -/
def dailySyncV2 (file : List Row) (cs : List RawComment) :
    Except String (List Row × Nat × Nat) := do
  let rows0 ← loadAllRows file
  let st ← dailyMerge classifyV2 rows0 cs
  pure (st.1.map (fun e => toStrRow e.2), st.2.1, st.2.2)

-- ### Gap fill (`run_comment_id_gap_fill`)

/-- `max(existing_comments)` (used only when the set is nonempty). -/
def maxNat (l : List Nat) : Nat := l.foldl max 0

/-- `sorted(set(range(1, last_id + 1)) - existing_comments)`: the ascending
list of ids in `[1, last]` that have no row in the store. -/
def missing_ids (file : List Row) : List Nat :=
  let existing := captured_comments file
  if existing.isEmpty then []
  else (List.range' 1 (maxNat existing)).filter (fun i => !(existing.contains i))

/-- `run_comment_id_gap_fill`: point-fetch every missing id and append a
formatted row for each id upstream returned a record for; nothing at all is
written for an id whose fetch returned no record.  `oracle` models
`fetch_single_comment` (`none` = 404/failed), and `order` is the
`as_completed` completion order of the submitted fetches (a permutation of
`missing_ids file`). -/
def run_comment_id_gap_fill (file : List Row) (oracle : Nat → Option RawComment)
    (order : List Nat) : Except String (List Row) := do
  let rows ← (order.filterMap oracle).mapM format_row
  pure (file ++ rows.map toStrRow)

/-- Gap fill with the deterministic submission order (fetches completing in
the order they were submitted). -/
def gapFillInOrder (file : List Row) (oracle : Nat → Option RawComment) :
    Except String (List Row) :=
  run_comment_id_gap_fill file oracle (missing_ids file)

-- ### Backfill (`process_media_list` and mode `full` of `main`)

/-- The comments `fetch_media_comments(m)` returns under response oracle
`ro`. -/
def fetchResult (ro : Nat → List ApiResponse) (m : Nat) : List RawComment :=
  fetch_media_comments (ro m)

/-- `process_media_list`: for each target (in `as_completed` completion
order), append the formatted fetched rows, or the `EMPTY_MARKER` sentinel
row when the fetch produced no comments. -/
def process_media_list (file : List Row) (targets : List Nat)
    (ro : Nat → List ApiResponse) : Except String (List Row) :=
  targets.foldlM (fun f m => do
    let res := fetchResult ro m
    if res.isEmpty then
      pure (f ++ [emptyMarkerRow (m : Int)])
    else do
      let rows ← res.mapM format_row
      pure (f ++ rows.map toStrRow)) file

/-- Mode `full` of `main`: the Backfill target set is the candidate catalog
list minus `captured_media`
(`targets = [x for x in all_json_ids if x not in captured_media]`). -/
def backfill_targets (jsonIds : List Nat) (file : List Row) : List Nat :=
  jsonIds.filter (fun x => !((captured_media file).contains x))

/-- The whole Backfill run: compute the target set, then scrape and append. -/
def run_full_backfill (file : List Row) (jsonIds : List Nat)
    (ro : Nat → List ApiResponse) : Except String (List Row) :=
  process_media_list file (backfill_targets jsonIds file) ro

-- ### Durable-write ordering of `run_daily_sync` (rewrite mode)

/-- The observable effects of `run_daily_sync` on the durable store file and
the network, in program order: `truncateStore` is `open(DB_PATH, 'w')`
(which truncates the file), `writeHeader` is `writer.writeheader()`,
`fetchTarget m` is the completed `fetch_media_comments(m)` call for one
active media id, and `writeAllRows` is the final
`for r in all_rows.values(): writer.writerow(r)`. -/
inductive SyncEv where
  | truncateStore : SyncEv
  | writeHeader : SyncEv
  | fetchTarget : Int → SyncEv
  | writeAllRows : List Row → SyncEv
deriving DecidableEq, Repr

/-- `run_daily_sync` of variant 1 as an effect trace: the store file is
opened with mode `'w'` — truncating it — and the header is written BEFORE
any comment is fetched or merged; the merged rows are written only at the
end.  (Variant 2 has the same effect order.)  `active` is the set of active
media ids and `oracle m` the response sequence of `fetch_media_comments(m)`. -/
def dailySyncEventsV1 (file : List Row) (active : List Int)
    (oracle : Int → List ApiResponse) : Except String (List SyncEv) := do
  let rows0 ← loadAllRows file
  let st0 : List (Int × Row) × Nat × Nat := (rows0, 0, 0)
  let p ← active.foldlM
    (fun (p : (List (Int × Row) × Nat × Nat) × List SyncEv) m => do
      let cs := fetch_media_comments (oracle m)
      let st1 ← cs.foldlM (dailyStep classifyV1) p.1
      pure (st1, p.2 ++ [SyncEv.fetchTarget m]))
    (st0, ([] : List SyncEv))
  pure ([SyncEv.truncateStore, SyncEv.writeHeader] ++ p.2 ++
    [SyncEv.writeAllRows (p.1.1.map (fun e => toStrRow e.2))])

/-- The data rows present in the durable store file after a prefix of the
effect trace has executed, starting from committed contents `init`. -/
def diskAfter (init : List Row) (evs : List SyncEv) : List Row :=
  evs.foldl (fun d e =>
    match e with
    | SyncEv.truncateStore => []
    | SyncEv.writeHeader => d
    | SyncEv.fetchTarget _ => d
    | SyncEv.writeAllRows rows => rows) init

-- ### Generic helpers

theorem except_bind_ok {α β : Type} {x : Except String α} {f : α → Except String β} {b : β} :
    (x >>= f) = .ok b ↔ ∃ a, x = .ok a ∧ f a = .ok b := by
  cases x <;> simp [Bind.bind, Except.bind]

theorem foldlM_cons_except {α σ : Type} (f : σ → α → Except String σ) (s : σ)
    (a : α) (l : List α) :
    List.foldlM f s (a :: l) = f s a >>= fun s1 => List.foldlM f s1 l := by
  simp [List.foldlM]

-- ### Concrete fixtures used by the counterexamples and witnesses

/-- A fully populated raw upstream comment (id 7, on media 101, 5 upvotes,
1 downvote, and an upstream-supplied `total_votes` of 999). -/
def rawA : RawComment where
  comment_id := some (.int 7)
  user_id := some (.int 42)
  media_id := some (.int 101)
  content := some (.str "hello")
  timestamp := some (.str "2024-01-01 00:00:00")
  deleted := some (.bool false)
  tag := some (.str "tagless")
  upvotes := some (.int 5)
  downvotes := some (.int 1)
  user_vote_type := some (.int 0)
  is_mod := some (.bool false)
  is_admin := some (.bool false)
  reply_count := some (.int 0)
  total_votes := some (.int 999)

/-- The row `format_row` builds from `rawA`. -/
def rowA : Row :=
  match format_row rawA with
  | .ok r => r
  | .error _ => blankRow

instance {e a : Type} [DecidableEq e] [DecidableEq a] : DecidableEq (Except e a)
  | .error x, .error y =>
    if h : x = y then isTrue (by rw [h]) else isFalse (fun hc => h (Except.error.inj hc))
  | .error _, .ok _ => isFalse (fun hc => Except.noConfusion hc)
  | .ok _, .error _ => isFalse (fun hc => Except.noConfusion hc)
  | .ok x, .ok y =>
    if h : x = y then isTrue (by rw [h]) else isFalse (fun hc => h (Except.ok.inj hc))

-- ### C1: derived total votes

/-- C1 counterexample: `format_row` does NOT recompute the total-votes field
from upvotes minus downvotes; for `rawA` (5 upvotes, 1 downvote, upstream
`total_votes` 999) the normalized row carries 999, not 4 — the upstream
value is taken verbatim. -/
theorem claim1_counterexample :
    format_row rawA = .ok rowA ∧
    rowA.upvotes = PyVal.int 5 ∧ rowA.downvotes = PyVal.int 1 ∧
    rowA.total_votes = PyVal.int 999 ∧ PyVal.int 999 ≠ PyVal.int (5 - 1) := by
  refine ⟨by decide, by decide, by decide, by decide, by decide⟩

/-- C1 (amended): the normalized record's total-votes field is copied from
the upstream record's own total-votes field (`int(c.get('total_votes', 0))`),
defaulting to 0 when upstream omits it; it is not recomputed from
upvotes/downvotes. -/
theorem claim1_amended (c : RawComment) (r : Row) (h : format_row c = .ok r) :
    (∀ v : Int, c.total_votes = some (.int v) → r.total_votes = .int v) ∧
    (c.total_votes = Option.none → r.total_votes = .int 0) := by
  unfold format_row at h
  rw [except_bind_ok] at h
  obtain ⟨upv, hupv, h⟩ := h
  rw [except_bind_ok] at h
  obtain ⟨dnv, hdnv, h⟩ := h
  rw [except_bind_ok] at h
  obtain ⟨rpc, hrpc, h⟩ := h
  rw [except_bind_ok] at h
  obtain ⟨ttv, httv, h⟩ := h
  have hr := Except.ok.inj h
  constructor
  · intro v hv
    rw [hv] at httv
    simp only [Option.getD_some, pyToInt, Except.ok.injEq] at httv
    rw [← hr, httv]
  · intro hv
    rw [hv] at httv
    simp only [Option.getD_none, pyToInt, Except.ok.injEq] at httv
    rw [← hr, httv]

/-- C1 witness: instantiating the amended claim on `rawA`. -/
theorem claim1_witness : rowA.total_votes = PyVal.int 999 :=
  (claim1_amended rawA rowA (by decide)).1 999 (by decide)

-- ### C4: paged fetch protocol

/-- C4: the paged fetch requests page 1 first; a non-empty batch is appended
and the page number advances; an empty batch or a 404 stops the fetch with
what was collected; any other non-200 status stops the fetch returning the
partial results; a 429 sleeps 30s and retries the SAME page, so a
429-then-batch sequence yields exactly the records of the immediate batch. -/
theorem claim4_paged_fetch :
    (∀ r rest, (fetchTrace (r :: rest)).head? = some (FetchEv.request 1)) ∧
    (∀ rest page acc c cs,
      fetchGo (ApiResponse.ok (c :: cs) :: rest) page acc =
        ((fetchGo rest (page + 1) (acc ++ c :: cs)).1,
          FetchEv.request page :: FetchEv.sleep 100 ::
            (fetchGo rest (page + 1) (acc ++ c :: cs)).2)) ∧
    (∀ rest page acc, fetchGo (ApiResponse.ok [] :: rest) page acc = (acc, [FetchEv.request page])) ∧
    (∀ rest page acc, fetchGo (ApiResponse.notFound :: rest) page acc = (acc, [FetchEv.request page])) ∧
    (∀ rest page acc, fetchGo (ApiResponse.otherStatus :: rest) page acc = (acc, [FetchEv.request page])) ∧
    (∀ rest page acc,
      fetchGo (ApiResponse.rateLimited :: rest) page acc =
        ((fetchGo rest page acc).1,
          FetchEv.request page :: FetchEv.sleep 30000 :: (fetchGo rest page acc).2)) ∧
    (∀ rest c cs,
      fetch_media_comments (ApiResponse.rateLimited :: ApiResponse.ok (c :: cs) :: rest) =
        fetch_media_comments (ApiResponse.ok (c :: cs) :: rest)) := by
  refine ⟨?_, ?_, ?_, ?_, ?_, ?_, ?_⟩
  · intro r rest
    cases r with
    | notFound => rfl
    | rateLimited => rfl
    | otherStatus => rfl
    | raised => rfl
    | ok cs => cases cs with
      | nil => rfl
      | cons c cs => rfl
  · exact fun rest page acc c cs => rfl
  · intro rest page acc
    rfl
  · intro rest page
    exact fun acc => rfl
  · exact fun rest page acc => rfl
  · intro rest
    exact fun page acc => rfl
  · intro rest c
    intro cs
    rfl

-- ### C9: connection/timeout errors

/-- C9 counterexample: a raised connection/timeout exception is NOT retried
at all — the fetch makes a single request, abandons the target immediately
and returns no records, even though the very next response would have been a
successful batch; an actual retry of the page would have returned `[rawA]`. -/
theorem claim9_counterexample :
    fetch_media_comments [ApiResponse.raised, ApiResponse.ok [rawA]] = [] ∧
    fetchTrace [ApiResponse.raised, ApiResponse.ok [rawA]] = [FetchEv.request 1] ∧
    fetch_media_comments [ApiResponse.ok [rawA]] = [rawA] := by
  refine ⟨rfl, rfl, rfl⟩

/-- C9 (amended): a connection/timeout error aborts the target's fetch at
once — no page-level retry — returning the records collected so far; the
surrounding run then records the target as empty (sentinel row) or keeps its
partial rows, and continues with the remaining targets. -/
theorem claim9_amended :
    (∀ rest page acc, fetchGo (ApiResponse.raised :: rest) page acc = (acc, [FetchEv.request page])) ∧
    (∀ (file : List Row) t ts ro, fetchResult ro t = [] →
      process_media_list file (t :: ts) ro =
        process_media_list (file ++ [emptyMarkerRow (t : Int)]) ts ro) ∧
    (∀ (file : List Row) t ts ro rows, fetchResult ro t ≠ [] →
      (fetchResult ro t).mapM format_row = .ok rows →
      process_media_list file (t :: ts) ro =
        process_media_list (file ++ rows.map toStrRow) ts ro) := by
  refine ⟨fun _ _ _ => rfl, ?_, ?_⟩
  · intro file t ts ro h
    unfold process_media_list
    rw [foldlM_cons_except]
    rw [h]
    rfl
  · intro file t ts ro rows hne hok
    unfold process_media_list
    rw [foldlM_cons_except]
    have hie : (fetchResult ro t).isEmpty = false := by
      cases hf : fetchResult ro t with
      | nil => exact absurd hf hne
      | cons a l => rfl
    simp only [hie, Bool.false_eq_true, if_false, hok]
    rfl

/-- Response oracle for the C9 witness: target 101's first request raises,
target 102 succeeds with one comment. -/
def roC9 : Nat → List ApiResponse := fun m =>
  if m = 101 then [ApiResponse.raised, ApiResponse.ok [rawA]] else [ApiResponse.ok [rawA]]

/-- C9 witness: with target 101 failing on a raised exception, the run
records the empty-marker row for it and moves on to target 102. -/
theorem claim9_witness :
    process_media_list [] [101, 102] roC9 =
      process_media_list ([] ++ [emptyMarkerRow ((101 : Nat) : Int)]) [102] roC9 :=
  claim9_amended.2.1 [] 101 [102] roC9 (by decide)

-- ### C10: the rewrite-mode load requires integer ids in every row

theorem loadFold_error (r : Row) (e : String)
    (hbad : pyToInt (getField r .comment_id) = .error e) :
    ∀ (file : List Row) (init : List (Int × Row)), r ∈ file →
      ∃ msg, file.foldlM loadStep init = .error msg := by
  intro file
  induction file with
  | nil => intro init h; simp at h
  | cons a l ih =>
    intro init hmem
    rw [foldlM_cons_except]
    rcases List.mem_cons.mp hmem with h | h
    · subst h
      have hstep : loadStep init r = .error e := by
        unfold loadStep
        rw [hbad]
        rfl
      rw [hstep]
      exact ⟨e, rfl⟩
    · cases hstep : loadStep init a with
      | error msg => exact ⟨msg, rfl⟩
      | ok b => exact ih b h

/-- C10: loading the store for the rewrite pass (`all_rows[int(row['comment_id'])]`)
fails with an exception as soon as any row's `comment_id` cell does not
convert with `int()` — in particular the blank-id empty-marker rows — rather
than skipping or preserving such a row. -/
theorem claim10_load_rejects_nonnumeric_ids (file : List Row) (r : Row) (e : String)
    (hr : r ∈ file) (hbad : pyToInt (getField r .comment_id) = .error e) :
    ∃ msg, loadAllRows file = .error msg :=
  loadFold_error r e hbad file [] hr

/-- C10 witness: a store holding one backfill empty-marker row (blank
`comment_id` cell) makes the rewrite-mode load raise. -/
theorem claim10_witness : ∃ msg, loadAllRows [emptyMarkerRow 102] = .error msg :=
  claim10_load_rejects_nonnumeric_ids [emptyMarkerRow 102] (emptyMarkerRow 102) "ValueError"
    (by decide) (by decide)

-- ### C3: backfill target set vs the empty-marker sentinel

/-- Modelled from the spec: the claim's notion of "marked scraped" — a
target counts as scraped if it has ANY row in the store, including a target
whose only row is the sentinel empty-marker row. -/
def spec_scraped_media (file : List Row) : List Nat :=
  file.filterMap (fun r =>
    match getField r .media_id with
    | .str s => digitParse s
    | _ => Option.none)

/-- Modelled from the spec: the Backfill target set the claim describes —
candidates minus targets marked scraped in the claim's sense. -/
def spec_backfill_targets (jsonIds : List Nat) (file : List Row) : List Nat :=
  jsonIds.filter (fun x => !((spec_scraped_media file).contains x))

/-- C3 counterexample: a store whose only row for target 102 is the
empty-marker sentinel.  The code's `get_existing_data` explicitly excludes
rows with `content == 'EMPTY_MARKER'` from `captured_media`, so the Backfill
target set still contains 102 — the target IS re-attempted — while the
claim's reading (scraped includes empty-marker-only targets) would make the
target set empty. -/
theorem claim3_counterexample :
    backfill_targets [102] [emptyMarkerRow 102] = [102] ∧
    spec_backfill_targets [102] [emptyMarkerRow 102] = [] ∧
    rowMediaCaptured (emptyMarkerRow 102) = Option.none := by
  refine ⟨by decide, by decide, by decide⟩

/-- C3 (amended): the Backfill target set is the candidate list minus
`captured_media`, where a target is marked scraped only by a row whose
`media_id` cell is a digit string AND whose `content` is not the
`EMPTY_MARKER` sentinel; hence a target whose rows are all empty-marker
sentinels is NOT marked scraped and is re-attempted by a later Backfill run. -/
theorem claim3_amended (jsonIds : List Nat) (file : List Row) (m : Nat) :
    (m ∈ captured_media file ↔ ∃ r ∈ file, rowMediaCaptured r = some m) ∧
    (m ∈ backfill_targets jsonIds file ↔ m ∈ jsonIds ∧ m ∉ captured_media file) ∧
    ((∀ r ∈ file, getField r .content = PyVal.str "EMPTY_MARKER") → m ∈ jsonIds →
      m ∈ backfill_targets jsonIds file) := by
  have h1 : m ∈ captured_media file ↔ ∃ r ∈ file, rowMediaCaptured r = some m := by
    simp [captured_media, List.mem_filterMap]
  have h2 : m ∈ backfill_targets jsonIds file ↔ m ∈ jsonIds ∧ m ∉ captured_media file := by
    simp [backfill_targets, List.mem_filter]
  refine ⟨h1, h2, ?_⟩
  intro hall hm
  refine h2.mpr ⟨hm, ?_⟩
  intro hcap
  obtain ⟨r, hrf, hrc⟩ := h1.mp hcap
  unfold rowMediaCaptured at hrc
  rw [hall r hrf] at hrc
  cases hmid : getField r Col.media_id with
  | str s =>
    rw [hmid] at hrc
    simp at hrc
  | none => rw [hmid] at hrc; simp at hrc
  | int i => rw [hmid] at hrc; simp at hrc
  | bool b => rw [hmid] at hrc; simp at hrc

/-- C3 witness: with the empty-marker-only store, target 102 is in the next
backfill's target set. -/
theorem claim3_witness : (102 : Nat) ∈ backfill_targets [102] [emptyMarkerRow 102] :=
  (claim3_amended [102] [emptyMarkerRow 102] 102).2.2 (by decide) (by decide)

-- ### C5: change classification

/-- Raw comment as first fetched: body "A", 5 upvotes. -/
def rawA5 : RawComment := { rawA with content := some (.str "A") }

/-- The same comment refetched later with one more upvote (body still "A"). -/
def rawB5 : RawComment := { rawA with content := some (.str "A"), upvotes := some (.int 6) }

/-- The formatted first fetch. -/
def freshA5 : Row :=
  match format_row rawA5 with
  | .ok r => r
  | .error _ => blankRow

/-- The formatted refetch. -/
def freshB5 : Row :=
  match format_row rawB5 with
  | .ok r => r
  | .error _ => blankRow

/-- The stored row for comment 7 after the first sync: inserted as NEW and
rendered through the CSV. -/
def storedA5 : Row := toStrRow { freshA5 with changes := PyVal.str "NEW" }

/-- C5 counterexample (variant 2): with the stored row's body unchanged
("A") but its upvote count changed (5 → 6), `run_daily_sync` of
`dantotsu_sync_new.py` classifies the record Updated yet leaves the
change_marker EMPTY — it is neither the comma-joined changed-field names
(that would be "upvotes") nor the previous body text ("A"), contradicting
the claimed marker policy. -/
theorem claim5_counterexample :
    classifyV2 storedA5 freshB5 = (freshB5, ChangeKind.updated) ∧
    freshB5.changes = PyVal.str "" ∧
    PyVal.str "" ≠ PyVal.str "upvotes" ∧
    getField storedA5 .content = PyVal.str "A" ∧ PyVal.str "" ≠ PyVal.str "A" := by
  refine ⟨by decide, by decide, by decide, by decide, by decide⟩

/-- C5 (amended): with no stored counterpart a record is inserted with
marker "NEW" (both variants).  With a stored counterpart: variant 1 compares
`field_names[:-1]` — every field except the marker, INCLUDING the record
key — and on any difference replaces the row with the marker set to the
comma-joined changed-field names; variant 2 compares the body (raw `!=`)
plus every field except key/body/marker (via `str()`), sets the marker to
the previous body only when the body changed, and leaves the marker as the
empty string `format_row` produced when only other fields changed.  In both
variants, when nothing compared differs the stored row is retained verbatim. -/
theorem claim5_amended :
    (∀ (classify : Row → Row → Row × ChangeKind) st (c : RawComment) v cid row,
      c.comment_id = some v → pyToInt v = .ok cid →
      format_row c = .ok row → lookupAssoc st.1 cid = Option.none →
      dailyStep classify st c =
        .ok (updateAssoc st.1 cid { row with changes := PyVal.str "NEW" },
          st.2.1 + 1, st.2.2)) ∧
    (Col.changes ∉ field_names.dropLast) ∧ (Col.comment_id ∈ field_names.dropLast) ∧
    (∀ old row k, k ∈ changedFieldsV1 old row ↔
      k ∈ field_names.dropLast ∧ pyStrOf (getField old k) ≠ pyStrOf (getField row k)) ∧
    (∀ old row, changedFieldsV1 old row = [] → classifyV1 old row = (old, ChangeKind.unchanged)) ∧
    (∀ old row, changedFieldsV1 old row ≠ [] →
      classifyV1 old row =
        ({ row with changes := PyVal.str (String.intercalate ","
            ((changedFieldsV1 old row).map Col.name)) }, ChangeKind.updated)) ∧
    (∀ old row, getField old .content ≠ getField row .content →
      classifyV2 old row = ({ row with changes := getField old .content }, ChangeKind.updated)) ∧
    (∀ old row, getField old .content = getField row .content →
      (field_names.filter (fun k => !(skipColsV2.contains k))).any
        (fun k => pyStrOf (getField old k) != pyStrOf (getField row k)) = true →
      classifyV2 old row = (row, ChangeKind.updated)) ∧
    (∀ (c : RawComment) r, format_row c = .ok r → r.changes = PyVal.str "") ∧
    (∀ old row, getField old .content = getField row .content →
      (field_names.filter (fun k => !(skipColsV2.contains k))).any
        (fun k => pyStrOf (getField old k) != pyStrOf (getField row k)) = false →
      classifyV2 old row = (old, ChangeKind.unchanged)) := by
  refine ⟨?_, by decide, by decide, ?_, ?_, ?_, ?_, ?_, ?_, ?_⟩
  · intro classify st c v cid row hv hcid hrow hlook
    unfold dailyStep
    rw [hv]
    show (Except.ok v >>= fun cidv => pyToInt cidv >>= fun cid2 =>
      format_row c >>= fun row2 => _) = _
    show (pyToInt v >>= fun cid2 => format_row c >>= fun row2 => _) = _
    rw [hcid]
    show (format_row c >>= fun row2 => _) = _
    rw [hrow]
    show (match lookupAssoc st.1 cid with
      | some old =>
        match classify old row with
        | (r, .updated) => pure (updateAssoc st.1 cid r, st.2.1, st.2.2 + 1)
        | (_, _) => pure st
      | Option.none =>
        pure (updateAssoc st.1 cid { row with changes := PyVal.str "NEW" },
          st.2.1 + 1, st.2.2)) = _
    rw [hlook]
    rfl
  · intro old row k
    simp [changedFieldsV1, List.mem_filter]
  · intro old row h
    simp only [classifyV1, h, List.isEmpty_nil, if_true]
  · intro old row h
    have hne : (changedFieldsV1 old row).isEmpty = false := by
      cases hc : changedFieldsV1 old row with
      | nil => exact absurd hc h
      | cons a l => rfl
    simp only [classifyV1, hne, Bool.false_eq_true, if_false]
  · intro old row h
    simp only [classifyV2]
    rw [if_pos h]
    rw [if_pos (Or.inl h)]
  · intro old row hc hother
    have hnc : ¬ (getField old Col.content ≠ getField row Col.content) := fun hx => hx hc
    simp only [classifyV2]
    rw [if_neg hnc]
    rw [if_pos (Or.inr hother)]
  · intro c r h
    unfold format_row at h
    rw [except_bind_ok] at h
    obtain ⟨upv, _, h⟩ := h
    rw [except_bind_ok] at h
    obtain ⟨dnv, _, h⟩ := h
    rw [except_bind_ok] at h
    obtain ⟨rpc, _, h⟩ := h
    rw [except_bind_ok] at h
    obtain ⟨ttv, _, h⟩ := h
    have hr := Except.ok.inj h
    rw [← hr]
  · intro old row hc hother
    have hnc : ¬ (getField old Col.content ≠ getField row Col.content) := fun hx => hx hc
    simp only [classifyV2]
    rw [if_neg hnc]
    rw [if_neg]
    rintro (h | h)
    · exact absurd hc h
    · rw [hother] at h
      exact Bool.false_ne_true h

/-- A stored row whose body ("X") differs from the refetched body ("A"). -/
def storedX5 : Row := { storedA5 with content := PyVal.str "X" }

/-- C5 witness: variant 2 on a changed body puts the previous body text in
the marker and classifies Updated. -/
theorem claim5_witness :
    classifyV2 storedX5 freshB5 =
      ({ freshB5 with changes := getField storedX5 .content }, ChangeKind.updated) :=
  claim5_amended.2.2.2.2.2.2.1 storedX5 freshB5 (by decide)

-- ### C2: durable writes happen before the merge completes

/-- A committed store row (comment 7), as the CSV holds it. -/
def committedRow : Row := toStrRow { rowA with changes := PyVal.str "NEW" }

/-- C2: `run_daily_sync` opens the store file with mode `'w'` — truncating
it — and writes the header BEFORE fetching or merging anything: on the
concrete run below (one committed row, one active target) the effect trace
starts with the truncation, and after its first two events (before the
fetch has even started) the durable file retains none of the previously
committed rows.  An interruption there loses the store, contradicting the
required write-only-after-merge behavior. -/
theorem claim2_truncate_before_merge :
    dailySyncEventsV1 [committedRow] [101] (fun _ => [ApiResponse.notFound]) =
      .ok [SyncEv.truncateStore, SyncEv.writeHeader, SyncEv.fetchTarget 101,
        SyncEv.writeAllRows [committedRow]] ∧
    diskAfter [committedRow]
      ([SyncEv.truncateStore, SyncEv.writeHeader, SyncEv.fetchTarget 101,
        SyncEv.writeAllRows [committedRow]].take 2) = [] ∧
    ([committedRow] : List Row) ≠ [] := by
  refine ⟨by decide, by decide, by decide⟩

-- ### C8: gap fill records nothing for absent ids

/-- Stored row for comment id 1. -/
def rowId1 : Row := toStrRow { rowA with comment_id := PyVal.int 1 }

/-- Stored row for comment id 3. -/
def rowId3 : Row := toStrRow { rowA with comment_id := PyVal.int 3 }

/-- A store knowing comments 1 and 3, with id 2 missing. -/
def storeC8 : List Row := [rowId1, rowId3]

/-- C8 counterexample: with max known id 3 and id 2 missing, a gap-fill run
whose point fetch finds nothing for id 2 appends NOTHING — the store ends
without a row for 2 and without any confirmed-absent record, so the next
gap-fill recomputes the same nonempty missing set `[2]`. -/
theorem claim8_counterexample :
    missing_ids storeC8 = [2] ∧
    gapFillInOrder storeC8 (fun _ => Option.none) = .ok storeC8 ∧
    (∀ r ∈ storeC8, rowId r ≠ some 2) ∧
    missing_ids storeC8 ≠ [] := by
  refine ⟨by decide, by decide, by decide, by decide⟩

theorem gapAppend_ids (oracle : Nat → Option RawComment) :
    ∀ (l : List Nat) (rows : List Row),
      (∀ i ∈ l, ∀ c, oracle i = some c →
        ∃ r, format_row c = .ok r ∧ rowId (toStrRow r) = some i) →
      (l.filterMap oracle).mapM format_row = .ok rows →
      (rows.map toStrRow).filterMap rowId = l.filter (fun i => (oracle i).isSome) := by
  intro l
  induction l with
  | nil =>
    intro rows _ hrows
    simp only [List.filterMap_nil, List.mapM_nil] at hrows
    have : rows = [] := (Except.ok.inj hrows).symm
    subst this
    rfl
  | cons i rest ih =>
    intro rows hid hrows
    cases ho : oracle i with
    | none =>
      rw [List.filterMap_cons, ho] at hrows
      rw [List.filter_cons]
      have hs : ((oracle i).isSome = true) = False := by rw [ho]; simp
      simp only [ho, Option.isSome_none, Bool.false_eq_true, if_false]
      exact ih rows (fun j hj => hid j (List.mem_cons_of_mem i hj)) hrows
    | some c =>
      rw [List.filterMap_cons, ho] at hrows
      obtain ⟨r, hr, hrid⟩ := hid i (List.mem_cons_self i rest) c ho
      rw [List.mapM_cons] at hrows
      rw [hr] at hrows
      rw [except_bind_ok] at hrows
      obtain ⟨r1, hr1, hrows⟩ := hrows
      obtain rfl : r = r1 := Except.ok.inj hr1
      rw [except_bind_ok] at hrows
      obtain ⟨rows2, hrows2, hpure2⟩ := hrows
      have hp2 : Except.ok (r :: rows2) = Except.ok rows := hpure2
      have : r :: rows2 = rows := Except.ok.inj hp2
      subst this
      rw [List.map_cons, List.filterMap_cons, hrid]
      rw [List.filter_cons]
      simp only [ho, Option.isSome_some, if_true]
      rw [ih rows2 (fun j hj => hid j (List.mem_cons_of_mem i hj)) hrows2]

/-- C8 (amended): after a gap-fill run, an id in `[1, N]` has a row in the
store iff it had one before or upstream returned a record for it during the
run; ids whose point fetch found nothing are recorded nowhere — in
particular, when upstream returns nothing for every missing id the store is
unchanged, so a subsequent gap-fill recomputes the very same missing set. -/
theorem claim8_amended (file : List Row) (oracle : Nat → Option RawComment) (out : List Row)
    (h : gapFillInOrder file oracle = .ok out)
    (hid : ∀ i ∈ missing_ids file, ∀ c, oracle i = some c →
      ∃ r, format_row c = .ok r ∧ rowId (toStrRow r) = some i) :
    (∀ n : Nat, n ∈ captured_comments out ↔
      n ∈ captured_comments file ∨ (n ∈ missing_ids file ∧ (oracle n).isSome)) ∧
    (∀ i ∈ missing_ids file, oracle i = Option.none → i ∉ captured_comments out) ∧
    ((∀ i ∈ missing_ids file, oracle i = Option.none) → out = file) := by
  unfold gapFillInOrder run_comment_id_gap_fill at h
  rw [except_bind_ok] at h
  obtain ⟨rows, hrows, hpure⟩ := h
  have hout : out = file ++ rows.map toStrRow := (Except.ok.inj hpure).symm
  have hids : (rows.map toStrRow).filterMap rowId =
      (missing_ids file).filter (fun i => (oracle i).isSome) :=
    gapAppend_ids oracle (missing_ids file) rows hid hrows
  have hcap : ∀ n : Nat, n ∈ captured_comments out ↔
      n ∈ captured_comments file ∨ (n ∈ missing_ids file ∧ (oracle n).isSome) := by
    intro n
    rw [hout]
    unfold captured_comments
    rw [List.filterMap_append]
    rw [List.mem_append]
    rw [hids]
    rw [List.mem_filter]
  refine ⟨hcap, ?_, ?_⟩
  · intro i hmiss hnone hmem
    rcases (hcap i).mp hmem with hold | ⟨_, hsome⟩
    · unfold missing_ids at hmiss
      by_cases hemp : (captured_comments file).isEmpty
      · rw [if_pos hemp] at hmiss
        simp at hmiss
      · rw [if_neg hemp] at hmiss
        rw [List.mem_filter] at hmiss
        have := hmiss.2
        simp at this
        exact this hold
    · rw [hnone] at hsome
      simp at hsome
  · intro hall
    have : (missing_ids file).filterMap oracle = [] := by
      rw [List.filterMap_eq_nil_iff]
      intro i hi
      rw [hall i hi]
    rw [this] at hrows
    simp only [List.mapM_nil] at hrows
    have hre : rows = [] := (Except.ok.inj hrows).symm
    rw [hout, hre]
    simp

/-- C8 witness: after gap-filling `storeC8` against an upstream that has no
record for id 2, the store still has no row for 2. -/
theorem claim8_witness : (2 : Nat) ∉ captured_comments storeC8 :=
  (claim8_amended storeC8 (fun _ => Option.none) storeC8 (by decide)
    (fun _ _ c hc => by simp at hc)).2.1 2 (by decide) rfl

-- ### Association-list and row lemmas shared by C6 and C7

theorem lookupAssoc_mem {m : List (Int × Row)} {k : Int} {v : Row}
    (h : lookupAssoc m k = some v) : (k, v) ∈ m := by
  induction m with
  | nil => simp [lookupAssoc] at h
  | cons p rest ih =>
    unfold lookupAssoc at h
    by_cases hk : k = p.1
    · rw [if_pos hk] at h
      have hv : v = p.2 := (Option.some.inj h).symm
      rw [hk, hv]
      exact List.mem_cons_self _ _
    · rw [if_neg hk] at h
      exact List.mem_cons_of_mem _ (ih h)

theorem updateAssoc_of_not_mem {m : List (Int × Row)} {k : Int} (v : Row)
    (h : k ∉ m.map Prod.fst) : updateAssoc m k v = m ++ [(k, v)] := by
  induction m with
  | nil => rfl
  | cons p rest ih =>
    unfold updateAssoc
    rw [List.map_cons, List.mem_cons] at h
    push_neg at h
    rw [if_neg h.1]
    rw [ih h.2]
    rfl

theorem updateAssoc_keys {m : List (Int × Row)} (k : Int) (v : Row) :
    (updateAssoc m k v).map Prod.fst =
      if k ∈ m.map Prod.fst then m.map Prod.fst else m.map Prod.fst ++ [k] := by
  induction m with
  | nil => rfl
  | cons p rest ih =>
    unfold updateAssoc
    by_cases hk : k = p.1
    · rw [if_pos hk]
      rw [List.map_cons, List.map_cons]
      rw [if_pos (by rw [List.mem_cons]; left; exact hk)]
      show k :: _ = p.1 :: _
      rw [hk]
    · rw [if_neg hk]
      rw [List.map_cons, List.map_cons, ih]
      by_cases hmem : k ∈ rest.map Prod.fst
      · rw [if_pos hmem, if_pos (by rw [List.mem_cons]; right; exact hmem)]
      · rw [if_neg hmem, if_neg (by rw [List.mem_cons]; push_neg; exact ⟨hk, hmem⟩)]
        rfl

theorem updateAssoc_keys_nodup {m : List (Int × Row)} {k : Int} {v : Row}
    (h : (m.map Prod.fst).Nodup) : ((updateAssoc m k v).map Prod.fst).Nodup := by
  rw [updateAssoc_keys]
  by_cases hmem : k ∈ m.map Prod.fst
  · rw [if_pos hmem]; exact h
  · rw [if_neg hmem]
    rw [List.nodup_append]
    exact ⟨h, List.nodup_singleton k, by simpa using hmem⟩

theorem updateAssoc_entries {P : Int × Row → Prop} {m : List (Int × Row)} {k : Int} {v : Row}
    (hm : ∀ p ∈ m, P p) (hv : P (k, v)) : ∀ p ∈ updateAssoc m k v, P p := by
  induction m with
  | nil =>
    intro p hp
    rw [updateAssoc] at hp
    rcases List.mem_singleton.mp hp with h
    rw [h]; exact hv
  | cons q rest ih =>
    intro p hp
    unfold updateAssoc at hp
    by_cases hk : k = q.1
    · rw [if_pos hk] at hp
      rcases List.mem_cons.mp hp with h | h
      · rw [h]; exact hv
      · exact hm p (List.mem_cons_of_mem _ h)
    · rw [if_neg hk] at hp
      rcases List.mem_cons.mp hp with h | h
      · rw [h]; exact hm q (List.mem_cons_self q rest)
      · exact ih (fun q hq => hm q (List.mem_cons_of_mem _ hq)) p h

theorem lookupAssoc_updateAssoc_self (m : List (Int × Row)) (k : Int) (v : Row) :
    lookupAssoc (updateAssoc m k v) k = some v := by
  induction m with
  | nil => simp [updateAssoc, lookupAssoc]
  | cons p rest ih =>
    unfold updateAssoc
    by_cases hk : k = p.1
    · rw [if_pos hk]
      simp [lookupAssoc]
    · rw [if_neg hk]
      unfold lookupAssoc
      rw [if_neg hk]
      exact ih

theorem lookupAssoc_updateAssoc_ne {m : List (Int × Row)} {k k2 : Int} (v : Row)
    (h : k2 ≠ k) : lookupAssoc (updateAssoc m k v) k2 = lookupAssoc m k2 := by
  induction m with
  | nil => simp [updateAssoc, lookupAssoc, h]
  | cons p rest ih =>
    unfold updateAssoc
    by_cases hk : k = p.1
    · rw [if_pos hk]
      unfold lookupAssoc
      rw [if_neg h, if_neg (by rw [← hk]; exact h)]
    · rw [if_neg hk]
      unfold lookupAssoc
      by_cases hk2 : k2 = p.1
      · rw [if_pos hk2, if_pos hk2]
      · rw [if_neg hk2, if_neg hk2]
        exact ih

/-- Generic invariant preservation through an `Except`-valued `foldlM`. -/
theorem foldlM_inv {σ α : Type} {P : σ → Prop} {step : σ → α → Except String σ} :
    ∀ (l : List α) (s s2 : σ),
      (∀ t a t2, P t → a ∈ l → step t a = .ok t2 → P t2) →
      P s → List.foldlM step s l = .ok s2 → P s2 := by
  intro l
  induction l with
  | nil =>
    intro s s2 _ hs h
    simp only [List.foldlM_nil] at h
    have : s = s2 := Except.ok.inj h
    rw [← this]; exact hs
  | cons a rest ih =>
    intro s s2 hstep hs h
    rw [foldlM_cons_except] at h
    rw [except_bind_ok] at h
    obtain ⟨s1, h1, h2⟩ := h
    exact ih s1 s2 (fun t b t2 ht hb => hstep t b t2 ht (List.mem_cons_of_mem _ hb))
      (hstep s a s1 hs (List.mem_cons_self a rest) h1) h2

-- ### Field-access structural lemmas

theorem getField_set_changes (r : Row) (v : PyVal) {k : Col} (hk : k ≠ Col.changes) :
    getField { r with changes := v } k = getField r k := by
  cases k <;> first | rfl | exact absurd rfl hk

theorem getField_toStrRow (r : Row) (k : Col) :
    getField (toStrRow r) k = .str (cellOf (getField r k)) := by
  cases k <;> rfl

theorem toStrRow_idem (r : Row) : toStrRow (toStrRow r) = toStrRow r := by
  cases r
  rfl

theorem cellOf_of_not_none {v : PyVal} (h : v ≠ PyVal.none) : cellOf v = pyStrOf v := by
  cases v with
  | none => exact absurd rfl h
  | int i => rfl
  | str s => rfl
  | bool b => rfl

/-- Is this value Python's `None`? -/
def isNoneVal : PyVal → Bool
  | .none => true
  | _ => false

/-- Is this value a Python `str`? -/
def isStrVal : PyVal → Bool
  | .str _ => true
  | _ => false

/-- No field of the row is `None` (such rows render to CSV cells whose
`str()` equals the original value's `str()`). -/
def noneFreeRow (r : Row) : Bool := field_names.all (fun k => !(isNoneVal (getField r k)))

/-- Every field of the row is a `str` (true of every row read from the CSV). -/
def strRowB (r : Row) : Bool := field_names.all (fun k => isStrVal (getField r k))

theorem col_mem_field_names (k : Col) : k ∈ field_names := by
  cases k <;> decide

theorem noneFreeRow_getField {r : Row} (h : noneFreeRow r = true) (k : Col) :
    getField r k ≠ PyVal.none := by
  unfold noneFreeRow at h
  rw [List.all_eq_true] at h
  have := h k (col_mem_field_names k)
  intro he
  rw [he] at this
  exact absurd this (by decide)

theorem strRowB_noneFree {r : Row} (h : strRowB r = true) : noneFreeRow r = true := by
  unfold strRowB at h
  unfold noneFreeRow
  rw [List.all_eq_true] at h ⊢
  intro k hk
  have := h k hk
  cases hv : getField r k <;> rw [hv] at this <;> first | rfl | exact absurd this (by decide)

theorem pyStrOf_toStrRow {r : Row} (h : noneFreeRow r = true) (k : Col) :
    pyStrOf (getField (toStrRow r) k) = pyStrOf (getField r k) := by
  rw [getField_toStrRow]
  show cellOf (getField r k) = _
  rw [cellOf_of_not_none (noneFreeRow_getField h k)]

-- ### Inversion and consistency lemmas for the daily merge

theorem format_row_fields {c : RawComment} {r : Row} (h : format_row c = .ok r) :
    r.comment_id = c.comment_id.getD .none ∧ r.changes = PyVal.str "" ∧
      ∃ s, r.content = PyVal.str s := by
  unfold format_row at h
  rw [except_bind_ok] at h
  obtain ⟨upv, _, h⟩ := h
  rw [except_bind_ok] at h
  obtain ⟨dnv, _, h⟩ := h
  rw [except_bind_ok] at h
  obtain ⟨rpc, _, h⟩ := h
  rw [except_bind_ok] at h
  obtain ⟨ttv, _, h⟩ := h
  have hr := Except.ok.inj h
  rw [← hr]
  exact ⟨rfl, rfl, _, rfl⟩

theorem pyToInt_str_parse {s : String} {k : Int} (h : pyToInt (.str s) = .ok k) :
    pyIntParse s = some k := by
  have h2 : (match pyIntParse s with
    | some i => (Except.ok i : Except String Int)
    | Option.none => Except.error "ValueError") = Except.ok k := h
  cases hps : pyIntParse s with
  | none => rw [hps] at h2; exact absurd h2 (by simp)
  | some i =>
    rw [hps] at h2
    have h3 : (Except.ok i : Except String Int) = Except.ok k := h2
    rw [Except.ok.inj h3]

theorem cellConsistent {v : PyVal} {k : Int} (h : pyToInt v = .ok k) :
    ∀ n : Nat, digitParse (cellOf v) = some n → (n : Int) = k := by
  intro n hd
  cases v with
  | int i =>
    have hk : i = k := Except.ok.inj h
    by_cases hi : i < 0
    · rw [show cellOf (.int i) = intToStr i from rfl, digitParse_intToStr_neg hi] at hd
      simp at hd
    · rw [show cellOf (.int i) = intToStr i from rfl,
        digitParse_intToStr_nonneg (by omega)] at hd
      have := Option.some.inj hd
      omega
  | str s =>
    have hp : pyIntParse s = some k := pyToInt_str_parse h
    have hd2 : digitParse s = some n := hd
    have := digitParse_pyIntParse hd2
    rw [hp] at this
    exact (Option.some.inj this).symm
  | bool b =>
    have hnone : digitParse (cellOf (PyVal.bool b)) = Option.none := by
      cases b <;> decide
    rw [hnone] at hd
    exact absurd hd (by simp)
  | none => exact absurd h (by simp [pyToInt])

/-- `rowId` of the CSV rendering of a row is the digit-parse of the
`comment_id` cell string. -/
theorem rowId_toStrRow (r : Row) :
    rowId (toStrRow r) = digitParse (cellOf (getField r .comment_id)) := by
  unfold rowId
  rw [getField_toStrRow]

theorem dailyStep_cases (classify : Row → Row → Row × ChangeKind)
    (st st2 : List (Int × Row) × Nat × Nat) (c : RawComment)
    (h : dailyStep classify st c = .ok st2) :
    ∃ v cid row, c.comment_id = some v ∧ pyToInt v = .ok cid ∧ format_row c = .ok row ∧
      ((∃ old, lookupAssoc st.1 cid = some old ∧
          ((∃ r, classify old row = (r, ChangeKind.updated) ∧
            st2 = (updateAssoc st.1 cid r, st.2.1, st.2.2 + 1)) ∨
           ((classify old row).2 ≠ ChangeKind.updated ∧ st2 = st))) ∨
       (lookupAssoc st.1 cid = Option.none ∧
         st2 = (updateAssoc st.1 cid { row with changes := PyVal.str "NEW" },
           st.2.1 + 1, st.2.2))) := by
  unfold dailyStep at h
  cases hv : c.comment_id with
  | none =>
    rw [hv] at h
    exact absurd h (by simp [Bind.bind, Except.bind])
  | some v =>
    rw [hv] at h
    rw [except_bind_ok] at h
    obtain ⟨v1, hv1, h⟩ := h
    have hv1e : Except.ok v = Except.ok v1 := hv1
    obtain rfl : v = v1 := Except.ok.inj hv1e
    refine ⟨v, ?_⟩
    rw [except_bind_ok] at h
    obtain ⟨cid, hcid, h⟩ := h
    rw [except_bind_ok] at h
    obtain ⟨row, hrow, h⟩ := h
    refine ⟨cid, row, rfl, hcid, hrow, ?_⟩
    cases hlook : lookupAssoc st.1 cid with
    | some old =>
      rw [hlook] at h
      left
      refine ⟨old, rfl, ?_⟩
      have h2 : (match classify old row with
        | (r, ChangeKind.updated) =>
          (pure (updateAssoc st.1 cid r, st.2.1, st.2.2 + 1) :
            Except String (List (Int × Row) × Nat × Nat))
        | (_, _) => pure st) = Except.ok st2 := h
      cases hcl : classify old row with
      | mk r kind =>
        rw [hcl] at h2
        cases kind with
        | updated =>
          left
          have h3 : Except.ok (updateAssoc st.1 cid r, st.2.1, st.2.2 + 1) =
            Except.ok st2 := h2
          exact ⟨r, rfl, (Except.ok.inj h3).symm⟩
        | unchanged =>
          right
          have h3 : Except.ok st = Except.ok st2 := h2
          exact ⟨by simp, (Except.ok.inj h3).symm⟩
        | fresh =>
          right
          have h3 : Except.ok st = Except.ok st2 := h2
          exact ⟨by simp, (Except.ok.inj h3).symm⟩
    | none =>
      rw [hlook] at h
      right
      have h3 : Except.ok (updateAssoc st.1 cid { row with changes := PyVal.str "NEW" },
        st.2.1 + 1, st.2.2) = Except.ok st2 := h
      exact ⟨rfl, (Except.ok.inj h3).symm⟩

-- ### C7: at most one row per record id

/-- The committed-store dedup notion, via the code's own id reading: the
ids bound by the file's rows are pairwise distinct. -/
def atMostOneRowPerId (file : List Row) : Prop := (captured_comments file).Nodup

theorem classifyV1_comment_id (old row : Row) :
    (classifyV1 old row).1.comment_id = row.comment_id ∨ (classifyV1 old row).1 = old := by
  simp only [classifyV1]
  split
  · right; rfl
  · left; rfl

theorem classifyV2_comment_id (old row : Row) :
    (classifyV2 old row).1.comment_id = row.comment_id ∨ (classifyV2 old row).1 = old := by
  simp only [classifyV2]
  by_cases hc : getField old Col.content ≠ getField row Col.content
  · rw [if_pos hc, if_pos (Or.inl hc)]
    left; rfl
  · rw [if_neg hc]
    by_cases ho : ((field_names.filter (fun k => !(skipColsV2.contains k))).any
        (fun k => pyStrOf (getField old k) != pyStrOf (getField row k))) = true
    · rw [if_pos (Or.inr ho)]
      left; rfl
    · rw [if_neg (by rintro (h | h); exact hc h; exact ho h)]
      right; rfl

/-- Entry soundness carried through the merge: the row stored under key `k`
has a `comment_id` value that `int()`s to `k`. -/
def entryOkW (p : Int × Row) : Prop :=
  pyToInt (getField p.2 .comment_id) = .ok p.1

theorem loadStep_inv {m m2 : List (Int × Row)} {r : Row}
    (hm : (∀ p ∈ m, entryOkW p) ∧ (m.map Prod.fst).Nodup)
    (h : loadStep m r = .ok m2) :
    (∀ p ∈ m2, entryOkW p) ∧ (m2.map Prod.fst).Nodup := by
  unfold loadStep at h
  rw [except_bind_ok] at h
  obtain ⟨k, hk, hp⟩ := h
  have h3 : Except.ok (updateAssoc m k r) = Except.ok m2 := hp
  have he : updateAssoc m k r = m2 := Except.ok.inj h3
  rw [← he]
  exact ⟨updateAssoc_entries hm.1 hk, updateAssoc_keys_nodup hm.2⟩

theorem loadAllRows_inv {file : List Row} {m : List (Int × Row)}
    (h : loadAllRows file = .ok m) :
    (∀ p ∈ m, entryOkW p) ∧ (m.map Prod.fst).Nodup := by
  unfold loadAllRows at h
  exact foldlM_inv file [] m (fun t a t2 ht _ hstep => loadStep_inv ht hstep)
    ⟨fun p hp => absurd hp (List.not_mem_nil p), List.nodup_nil⟩ h

theorem dailyStep_inv {classify : Row → Row → Row × ChangeKind}
    (hcls : ∀ old row, (classify old row).1.comment_id = row.comment_id ∨
      (classify old row).1 = old)
    {st st2 : List (Int × Row) × Nat × Nat} {c : RawComment}
    (hm : (∀ p ∈ st.1, entryOkW p) ∧ (st.1.map Prod.fst).Nodup)
    (h : dailyStep classify st c = .ok st2) :
    (∀ p ∈ st2.1, entryOkW p) ∧ (st2.1.map Prod.fst).Nodup := by
  obtain ⟨v, cid, row, hv, hcid, hrow, hc⟩ := dailyStep_cases classify st st2 c h
  have hrowid : row.comment_id = v := by
    rw [(format_row_fields hrow).1, hv]
    rfl
  rcases hc with ⟨old, hlook, hbranch⟩ | ⟨hlook, hst2⟩
  · rcases hbranch with ⟨r, hcl, hst2⟩ | ⟨_, hst2⟩
    · rw [hst2]
      refine ⟨updateAssoc_entries hm.1 ?_, updateAssoc_keys_nodup hm.2⟩
      show pyToInt (getField r .comment_id) = .ok cid
      rcases hcls old row with hsame | holdr
      · rw [hcl] at hsame
        show pyToInt r.comment_id = .ok cid
        rw [hsame, hrowid]
        exact hcid
      · rw [hcl] at holdr
        have hre : r = old := holdr
        show pyToInt r.comment_id = .ok cid
        rw [hre]
        exact hm.1 (cid, old) (lookupAssoc_mem hlook)
    · rw [hst2]
      exact hm
  · rw [hst2]
    refine ⟨updateAssoc_entries hm.1 ?_, updateAssoc_keys_nodup hm.2⟩
    show pyToInt (getField { row with changes := PyVal.str "NEW" } .comment_id) = .ok cid
    show pyToInt row.comment_id = .ok cid
    rw [hrowid]
    exact hcid

theorem mapped_ids_nodup :
    ∀ (m : List (Int × Row)), (∀ p ∈ m, entryOkW p) → ((m.map Prod.fst).Nodup) →
      ((m.map (fun p => toStrRow p.2)).filterMap rowId).Nodup := by
  intro m
  induction m with
  | nil => intro _ _; simp
  | cons p rest ih =>
    intro hE hN
    rw [List.map_cons, List.filterMap_cons]
    rw [List.map_cons, List.nodup_cons] at hN
    have htail := ih (fun q hq => hE q (List.mem_cons_of_mem _ hq)) hN.2
    cases hr : rowId (toStrRow p.2) with
    | none => exact htail
    | some n =>
      rw [List.nodup_cons]
      refine ⟨?_, htail⟩
      intro hmem
      rw [List.mem_filterMap] at hmem
      obtain ⟨r2, hr2mem, hr2⟩ := hmem
      rw [List.mem_map] at hr2mem
      obtain ⟨q, hqmem, hq⟩ := hr2mem
      have hq1 : (n : Int) = q.1 := by
        apply cellConsistent (hE q (List.mem_cons_of_mem _ hqmem)) n
        rw [← rowId_toStrRow]
        rw [hq]
        exact hr2
      have hp1 : (n : Int) = p.1 := by
        apply cellConsistent (hE p (List.mem_cons_self p rest)) n
        rw [← rowId_toStrRow]
        exact hr
      apply hN.1
      rw [List.mem_map]
      exact ⟨q, hqmem, by rw [← hq1, ← hp1]⟩

/-- The merged `all_rows` dict keeps sound entries with distinct keys. -/
theorem dailyMerge_inv {classify : Row → Row → Row × ChangeKind}
    (hcls : ∀ old row, (classify old row).1.comment_id = row.comment_id ∨
      (classify old row).1 = old)
    {rows0 : List (Int × Row)} {cs : List RawComment}
    {st2 : List (Int × Row) × Nat × Nat}
    (h0 : (∀ p ∈ rows0, entryOkW p) ∧ (rows0.map Prod.fst).Nodup)
    (h : dailyMerge classify rows0 cs = .ok st2) :
    (∀ p ∈ st2.1, entryOkW p) ∧ (st2.1.map Prod.fst).Nodup := by
  unfold dailyMerge at h
  exact foldlM_inv (P := fun st => (∀ p ∈ st.1, entryOkW p) ∧ (st.1.map Prod.fst).Nodup)
    cs (rows0, 0, 0) st2 (fun t a t2 ht _ hstep => dailyStep_inv hcls ht hstep) h0 h

/-- The store id a fetched raw comment will bind once formatted and written
(`none` when formatting fails or the rendered id cell is not a digit string). -/
def fmtRowIdOf (c : RawComment) : Option Nat :=
  match format_row c with
  | .ok r => rowId (toStrRow r)
  | .error _ => Option.none

/-- The ids the rows appended for one backfill target bind. -/
def targetRowIds (ro : Nat → List ApiResponse) (t : Nat) : List Nat :=
  (fetchResult ro t).filterMap fmtRowIdOf

/-- All ids a `process_media_list` run appends, in target order. -/
def runNewIds (targets : List Nat) (ro : Nat → List ApiResponse) : List Nat :=
  (targets.map (targetRowIds ro)).flatten

theorem mapM_row_ids :
    ∀ (cs : List RawComment) (rows : List Row), cs.mapM format_row = .ok rows →
      (rows.map toStrRow).filterMap rowId = cs.filterMap fmtRowIdOf := by
  intro cs
  induction cs with
  | nil =>
    intro rows h
    simp only [List.mapM_nil] at h
    have : rows = [] := (Except.ok.inj h).symm
    rw [this]
    rfl
  | cons c rest ih =>
    intro rows h
    rw [List.mapM_cons] at h
    rw [except_bind_ok] at h
    obtain ⟨r, hr, h⟩ := h
    rw [except_bind_ok] at h
    obtain ⟨rows2, hrows2, hpure⟩ := h
    have hp : Except.ok (r :: rows2) = Except.ok rows := hpure
    have : r :: rows2 = rows := Except.ok.inj hp
    rw [← this]
    rw [List.map_cons, List.filterMap_cons, List.filterMap_cons]
    unfold fmtRowIdOf
    rw [hr]
    rw [ih rows2 hrows2]
    rfl

theorem rowId_emptyMarkerRow (t : Int) : rowId (emptyMarkerRow t) = Option.none := by
  show digitParse "" = Option.none
  decide

theorem captured_marker_append (file : List Row) (t : Int) :
    captured_comments (file ++ [emptyMarkerRow t]) = captured_comments file := by
  unfold captured_comments
  rw [List.filterMap_append]
  rw [show List.filterMap rowId [emptyMarkerRow t] = [] from by
    rw [List.filterMap_cons, rowId_emptyMarkerRow]
    rfl]
  rw [List.append_nil]

theorem process_media_list_nodup (ro : Nat → List ApiResponse) :
    ∀ (targets : List Nat) (file : List Row) (out : List Row),
      process_media_list file targets ro = .ok out →
      (captured_comments file).Nodup → (runNewIds targets ro).Nodup →
      (∀ n ∈ runNewIds targets ro, n ∉ captured_comments file) →
      (captured_comments out).Nodup := by
  intro targets
  induction targets with
  | nil =>
    intro file out h h0 _ _
    unfold process_media_list at h
    simp only [List.foldlM_nil] at h
    have : file = out := Except.ok.inj h
    rw [← this]
    exact h0
  | cons t ts ih =>
    intro file out h h0 hnew hdisj
    unfold process_media_list at h
    rw [foldlM_cons_except] at h
    have hrun : runNewIds (t :: ts) ro = targetRowIds ro t ++ runNewIds ts ro := by
      unfold runNewIds
      rw [List.map_cons, List.flatten_cons]
    rw [hrun] at hnew hdisj
    rw [List.nodup_append] at hnew
    by_cases hres : (fetchResult ro t).isEmpty
    · rw [if_pos hres] at h
      have hres2 : fetchResult ro t = [] := by
        cases he : fetchResult ro t with
        | nil => rfl
        | cons a l => rw [he] at hres; exact absurd hres (by simp)
      have htid : targetRowIds ro t = [] := by
        unfold targetRowIds
        rw [hres2]
        rfl
      rw [except_bind_ok] at h
      obtain ⟨f1, hf1, h⟩ := h
      have hf1e : Except.ok (file ++ [emptyMarkerRow (t : Int)]) = Except.ok f1 := hf1
      have hfe : file ++ [emptyMarkerRow (t : Int)] = f1 := Except.ok.inj hf1e
      have hcap : captured_comments f1 = captured_comments file := by
        rw [← hfe]
        exact captured_marker_append file (t : Int)
      refine ih f1 out h (by rw [hcap]; exact h0) hnew.2.1 ?_
      intro n hn
      rw [hcap]
      exact hdisj n (by rw [htid]; simpa using hn)
    · rw [if_neg hres] at h
      rw [except_bind_ok] at h
      obtain ⟨f1, hf1, h⟩ := h
      rw [except_bind_ok] at hf1
      obtain ⟨rows, hrows, hp⟩ := hf1
      have hpe : Except.ok (file ++ rows.map toStrRow) = Except.ok f1 := hp
      have hfe : file ++ rows.map toStrRow = f1 := Except.ok.inj hpe
      have hcap : captured_comments f1 = captured_comments file ++ targetRowIds ro t := by
        rw [← hfe]
        unfold captured_comments
        rw [List.filterMap_append]
        unfold targetRowIds
        rw [mapM_row_ids (fetchResult ro t) rows hrows]
      have hnodup1 : (captured_comments f1).Nodup := by
        rw [hcap, List.nodup_append]
        refine ⟨h0, hnew.1, ?_⟩
        intro a ha ha2
        exact hdisj a (List.mem_append_left _ ha2) ha
      refine ih f1 out h hnodup1 hnew.2.1 ?_
      intro n hn
      rw [hcap]
      intro hmem
      rcases List.mem_append.mp hmem with hmem | hmem
      · exact hdisj n (List.mem_append_right _ hn) hmem
      · exact hnew.2.2 hmem hn

theorem missing_not_captured {file : List Row} {i : Nat} (h : i ∈ missing_ids file) :
    i ∉ captured_comments file := by
  unfold missing_ids at h
  by_cases he : (captured_comments file).isEmpty
  · rw [if_pos he] at h
    simp at h
  · rw [if_neg he] at h
    rw [List.mem_filter] at h
    have := h.2
    simp at this
    exact this

/-- A raw comment whose body is literally the sentinel text. -/
def rawM : RawComment := { rawA with content := some (.str "EMPTY_MARKER") }

/-- Its formatted row. -/
def fmtM : Row :=
  match format_row rawM with
  | .ok r => r
  | .error _ => blankRow

/-- The stored row for comment 7 after an earlier run (body
"EMPTY_MARKER"). -/
def storedM : Row := toStrRow { fmtM with changes := PyVal.str "NEW" }

/-- A store already holding comment 7 of media 101. -/
def fileC7 : List Row := [storedM]

/-- Upstream: media 101 has exactly that comment. -/
def roC7 : Nat → List ApiResponse := fun _ => [ApiResponse.ok [rawM]]

/-- C7 counterexample: a stored comment whose BODY is the sentinel text
"EMPTY_MARKER" makes `get_existing_data` drop its media from
`captured_media`, so the next Backfill re-attempts target 101, refetches
comment 7 and appends it again: the store goes from one row per id to two
rows binding id 7. -/
theorem claim7_counterexample :
    atMostOneRowPerId fileC7 ∧
    run_full_backfill fileC7 [101] roC7 = .ok (fileC7 ++ [toStrRow fmtM]) ∧
    ¬ atMostOneRowPerId (fileC7 ++ [toStrRow fmtM]) := by
  refine ⟨?_, by decide, ?_⟩
  · show (captured_comments fileC7).Nodup
    decide
  · intro hc
    have hn : (captured_comments (fileC7 ++ [toStrRow fmtM])).Nodup := hc
    exact absurd hn (by decide)

/-- C7 (amended): rewrite-mode daily sync — in either variant — always
commits a store with at most one row per record id (its `all_rows` dict
dedups by construction).  The append-mode strategies preserve the invariant
only under freshness assumptions: gap-fill when the point-fetched records
carry the queried ids (which are distinct and absent by construction), and
backfill when the ids of all fetched rows are pairwise distinct and not
already stored — the counterexample shows the code itself does not
guarantee the latter. -/
theorem claim7_amended :
    (∀ (file : List Row) cs out (n u : Nat), dailySyncV1 file cs = .ok (out, n, u) →
      atMostOneRowPerId out) ∧
    (∀ (file : List Row) cs out (n u : Nat), dailySyncV2 file cs = .ok (out, n, u) →
      atMostOneRowPerId out) ∧
    (∀ (file : List Row) oracle order out,
      run_comment_id_gap_fill file oracle order = .ok out →
      atMostOneRowPerId file → order.Nodup → (∀ i ∈ order, i ∈ missing_ids file) →
      (∀ i ∈ order, ∀ c, oracle i = some c →
        ∃ r, format_row c = .ok r ∧ rowId (toStrRow r) = some i) →
      atMostOneRowPerId out) ∧
    (∀ (file : List Row) targets ro out, process_media_list file targets ro = .ok out →
      atMostOneRowPerId file → (runNewIds targets ro).Nodup →
      (∀ n ∈ runNewIds targets ro, n ∉ captured_comments file) →
      atMostOneRowPerId out) := by
  refine ⟨?_, ?_, ?_, ?_⟩
  · intro file cs out n u h
    unfold dailySyncV1 at h
    rw [except_bind_ok] at h
    obtain ⟨rows0, hload, h⟩ := h
    rw [except_bind_ok] at h
    obtain ⟨st, hmerge, hp⟩ := h
    have hpe : Except.ok (st.1.map (fun e => toStrRow e.2), st.2.1, st.2.2) =
      Except.ok (out, n, u) := hp
    have hout : st.1.map (fun e => toStrRow e.2) = out :=
      congrArg Prod.fst (Except.ok.inj hpe)
    have hinv := dailyMerge_inv classifyV1_comment_id (loadAllRows_inv hload) hmerge
    show (captured_comments out).Nodup
    rw [← hout]
    exact mapped_ids_nodup st.1 hinv.1 hinv.2
  · intro file cs out n u h
    unfold dailySyncV2 at h
    rw [except_bind_ok] at h
    obtain ⟨rows0, hload, h⟩ := h
    rw [except_bind_ok] at h
    obtain ⟨st, hmerge, hp⟩ := h
    have hpe : Except.ok (st.1.map (fun e => toStrRow e.2), st.2.1, st.2.2) =
      Except.ok (out, n, u) := hp
    have hout : st.1.map (fun e => toStrRow e.2) = out :=
      congrArg Prod.fst (Except.ok.inj hpe)
    have hinv := dailyMerge_inv classifyV2_comment_id (loadAllRows_inv hload) hmerge
    show (captured_comments out).Nodup
    rw [← hout]
    exact mapped_ids_nodup st.1 hinv.1 hinv.2
  · intro file oracle order out h h0 hord hmiss hid
    unfold run_comment_id_gap_fill at h
    rw [except_bind_ok] at h
    obtain ⟨rows, hrows, hp⟩ := h
    have hpe : Except.ok (file ++ rows.map toStrRow) = Except.ok out := hp
    have hout : file ++ rows.map toStrRow = out := Except.ok.inj hpe
    have hids := gapAppend_ids oracle order rows hid hrows
    show (captured_comments out).Nodup
    rw [← hout]
    unfold captured_comments
    rw [List.filterMap_append]
    rw [show List.filterMap rowId (rows.map toStrRow) =
      order.filter (fun i => (oracle i).isSome) from hids]
    rw [List.nodup_append]
    refine ⟨h0, List.Nodup.filter _ hord, ?_⟩
    intro a ha ha2
    rw [List.mem_filter] at ha2
    exact missing_not_captured (hmiss a ha2.1) ha
  · intro file targets ro out h h0 hnew hdisj
    exact process_media_list_nodup ro targets file out h h0 hnew hdisj

/-- The store after the first daily sync of comment 7 into an empty store. -/
def fileW : List Row :=
  match dailySyncV1 [] [rawA] with
  | .ok (f, _, _) => f
  | .error _ => []

/-- C7 witness: the concrete daily sync of `rawA` into an empty store
commits a store with at most one row per id. -/
theorem claim7_witness : atMostOneRowPerId fileW :=
  claim7_amended.1 [] [rawA] fileW 1 0 (by decide)

-- ### C6: idempotence of the daily sync

/-- The dict key `int(c['comment_id'])` of a raw comment (0 when the lookup
or conversion would raise; under `GoodC` it is the true key). -/
def keyOf (c : RawComment) : Int :=
  match c.comment_id with
  | some v =>
    match pyToInt v with
    | .ok k => k
    | .error _ => 0
  | Option.none => 0

/-- The row `format_row` produces (meaningful under `GoodC`). -/
def fmtOf (c : RawComment) : Row :=
  match format_row c with
  | .ok r => r
  | .error _ => blankRow

/-- A well-behaved fetched comment: its id is present and converts to the
key, the id's CSV cell re-parses to the same key, formatting succeeds, and
no formatted field is `None` (a `None` field is written as an empty cell
but compares as the string "None" on refetch, breaking idempotence — see
the C6 counterexample). -/
@[reducible] def GoodC (c : RawComment) : Prop :=
  match c.comment_id with
  | some v =>
    pyToInt v = .ok (keyOf c) ∧ pyIntParse (cellOf v) = some (keyOf c) ∧
    (match format_row c with
     | .ok r => noneFreeRow r = true
     | .error _=> False)
  | Option.none => False

/-- Agreement on variant 1's compared fields (`field_names[:-1]`). -/
def agreeV1 (a b : Row) : Prop :=
  ∀ k ∈ field_names.dropLast, pyStrOf (getField a k) = pyStrOf (getField b k)

/-- The fields variant 2's loop actually compares. -/
def cmpColsV2 : List Col := field_names.filter (fun k => !(skipColsV2.contains k))

/-- Agreement for variant 2: raw-equal content plus `str()`-equal compared
fields. -/
def agreeV2 (a b : Row) : Prop :=
  getField a .content = getField b .content ∧
  ∀ k ∈ cmpColsV2, pyStrOf (getField a k) = pyStrOf (getField b k)

/-- Entry soundness for the idempotence proof: the key converts AND its CSV
cell re-parses to the key, and the row has no `None` field. -/
def entryOkC6 (p : Int × Row) : Prop :=
  pyToInt (getField p.2 .comment_id) = .ok p.1 ∧
  pyIntParse (cellOf (getField p.2 .comment_id)) = some p.1 ∧
  noneFreeRow p.2 = true

theorem noneFreeRow_set_changes {r : Row} (h : noneFreeRow r = true) {v : PyVal}
    (hv : isNoneVal v = false) : noneFreeRow { r with changes := v } = true := by
  unfold noneFreeRow at h ⊢
  rw [List.all_eq_true] at h ⊢
  intro k hk
  by_cases hc : k = Col.changes
  · rw [hc]
    have he : getField { r with changes := v } Col.changes = v := rfl
    rw [he, hv]
    rfl
  · rw [getField_set_changes r v hc]
    exact h k hk

theorem changedFieldsV1_nil_iff (old row : Row) :
    changedFieldsV1 old row = [] ↔ agreeV1 old row := by
  unfold changedFieldsV1 agreeV1
  rw [List.filter_eq_nil_iff]
  constructor
  · intro h k hk
    have := h k hk
    simpa using this
  · intro h k hk
    simp only [bne_iff_ne, ne_eq, Bool.not_eq_true]
    simp only [decide_eq_false_iff_not, Decidable.not_not]
    exact h k hk

theorem classifyV1_of_agree {old row : Row} (h : agreeV1 old row) :
    classifyV1 old row = (old, ChangeKind.unchanged) := by
  have hnil : changedFieldsV1 old row = [] := (changedFieldsV1_nil_iff old row).mpr h
  simp only [classifyV1, hnil, List.isEmpty_nil, if_true]

theorem classifyV1_not_updated_agree {old row : Row}
    (h : (classifyV1 old row).2 ≠ ChangeKind.updated) : agreeV1 old row := by
  rw [← changedFieldsV1_nil_iff]
  by_contra hne
  have hie : (changedFieldsV1 old row).isEmpty = false := by
    cases hc : changedFieldsV1 old row with
    | nil => exact absurd hc hne
    | cons a l => rfl
  apply h
  simp only [classifyV1, hie, Bool.false_eq_true, if_false]

theorem classifyV1_updated_shape {old row r : Row}
    (h : classifyV1 old row = (r, ChangeKind.updated)) :
    r = { row with changes := PyVal.str (String.intercalate ","
      ((changedFieldsV1 old row).map Col.name)) } := by
  by_cases hie : (changedFieldsV1 old row).isEmpty
  · rw [show classifyV1 old row = (old, ChangeKind.unchanged) from by
      simp only [classifyV1, hie, if_true]] at h
    exact absurd (congrArg Prod.snd h) (by simp)
  · rw [show (classifyV1 old row) = ({ row with changes := PyVal.str (String.intercalate ","
      ((changedFieldsV1 old row).map Col.name)) }, ChangeKind.updated) from by
      simp only [classifyV1, hie, Bool.false_eq_true, if_false]] at h
    exact (congrArg Prod.fst h).symm

theorem agreeV2_of_parts {old row : Row}
    (hc : getField old .content = getField row .content)
    (ho : (field_names.filter (fun k => !(skipColsV2.contains k))).any
      (fun k => pyStrOf (getField old k) != pyStrOf (getField row k)) = false) :
    agreeV2 old row := by
  refine ⟨hc, ?_⟩
  intro k hk
  rw [List.any_eq_false] at ho
  have := ho k hk
  simpa using this

theorem classifyV2_of_agree {old row : Row} (h : agreeV2 old row) :
    classifyV2 old row = (old, ChangeKind.unchanged) := by
  have hnc : ¬ (getField old Col.content ≠ getField row Col.content) := fun hx => hx h.1
  simp only [classifyV2]
  rw [if_neg hnc]
  rw [if_neg]
  rintro (hx | hx)
  · exact hnc hx
  · rw [List.any_eq_true] at hx
    obtain ⟨k, hk, hkne⟩ := hx
    have := h.2 k hk
    rw [this] at hkne
    simp at hkne

theorem classifyV2_not_updated_agree {old row : Row}
    (h : (classifyV2 old row).2 ≠ ChangeKind.updated) : agreeV2 old row := by
  by_cases hc : getField old Col.content ≠ getField row Col.content
  · exfalso
    apply h
    simp only [classifyV2]
    rw [if_pos hc, if_pos (Or.inl hc)]
  · have hceq : getField old Col.content = getField row Col.content := not_ne_iff.mp hc
    by_cases ho : ((field_names.filter (fun k => !(skipColsV2.contains k))).any
        (fun k => pyStrOf (getField old k) != pyStrOf (getField row k))) = true
    · exfalso
      apply h
      simp only [classifyV2]
      rw [if_neg hc, if_pos (Or.inr ho)]
    · exact agreeV2_of_parts hceq (by simpa using ho)

theorem classifyV2_updated_shape {old row r : Row}
    (h : classifyV2 old row = (r, ChangeKind.updated)) :
    r = { row with changes := getField old .content } ∨ r = row := by
  by_cases hc : getField old Col.content ≠ getField row Col.content
  · left
    have : classifyV2 old row = ({ row with changes := getField old .content },
        ChangeKind.updated) := by
      simp only [classifyV2]
      rw [if_pos hc, if_pos (Or.inl hc)]
    rw [this] at h
    exact (congrArg Prod.fst h).symm
  · by_cases ho : ((field_names.filter (fun k => !(skipColsV2.contains k))).any
        (fun k => pyStrOf (getField old k) != pyStrOf (getField row k))) = true
    · right
      have : classifyV2 old row = (row, ChangeKind.updated) := by
        simp only [classifyV2]
        rw [if_neg hc, if_pos (Or.inr ho)]
      rw [this] at h
      exact (congrArg Prod.fst h).symm
    · exfalso
      have : classifyV2 old row = (old, ChangeKind.unchanged) :=
        classifyV2_of_agree (agreeV2_of_parts (not_ne_iff.mp hc) (by simpa using ho))
      rw [this] at h
      exact absurd (congrArg Prod.snd h) (by simp)

theorem GoodC_elim {c : RawComment} (hg : GoodC c) :
    ∃ v, c.comment_id = some v ∧ pyToInt v = .ok (keyOf c) ∧
      pyIntParse (cellOf v) = some (keyOf c) ∧ format_row c = .ok (fmtOf c) ∧
      noneFreeRow (fmtOf c) = true := by
  unfold GoodC at hg
  cases hv : c.comment_id with
  | none => rw [hv] at hg; exact absurd hg (by simp)
  | some v =>
    rw [hv] at hg
    refine ⟨v, rfl, hg.1, hg.2.1, ?_⟩
    have hg3 := hg.2.2
    cases hf : format_row c with
    | error e => rw [hf] at hg3; exact absurd hg3 (by simp)
    | ok r =>
      rw [hf] at hg3
      have : fmtOf c = r := by unfold fmtOf; rw [hf]
      rw [this]
      exact ⟨rfl, hg3⟩

theorem dailyStepC6_inv {classify : Row → Row → Row × ChangeKind}
    (H1 : ∀ old row r, classify old row = (r, ChangeKind.updated) →
      r.comment_id = row.comment_id ∧
      (noneFreeRow old = true → noneFreeRow row = true → noneFreeRow r = true))
    {st st2 : List (Int × Row) × Nat × Nat} {c : RawComment} (hg : GoodC c)
    (hm : (∀ p ∈ st.1, entryOkC6 p) ∧ (st.1.map Prod.fst).Nodup)
    (h : dailyStep classify st c = .ok st2) :
    (∀ p ∈ st2.1, entryOkC6 p) ∧ (st2.1.map Prod.fst).Nodup := by
  obtain ⟨v, hv, hcid0, hcell, hfmt, hnf⟩ := GoodC_elim hg
  obtain ⟨v2, cid, row, hv2, hcid2, hrow2, hc⟩ := dailyStep_cases classify st st2 c h
  obtain rfl : v = v2 := by rw [hv] at hv2; exact Option.some.inj hv2
  obtain rfl : cid = keyOf c := by
    rw [hcid0] at hcid2
    exact (Except.ok.inj hcid2).symm
  obtain rfl : row = fmtOf c := by
    rw [hfmt] at hrow2
    exact (Except.ok.inj hrow2).symm
  have hrowid : (fmtOf c).comment_id = v := by
    rw [(format_row_fields hfmt).1, hv]
    rfl
  have hentry : ∀ r2 : Row, r2.comment_id = (fmtOf c).comment_id →
      noneFreeRow r2 = true → entryOkC6 (keyOf c, r2) := by
    intro r2 hid hn
    refine ⟨?_, ?_, hn⟩
    · show pyToInt r2.comment_id = .ok (keyOf c)
      rw [hid, hrowid]
      exact hcid0
    · show pyIntParse (cellOf r2.comment_id) = some (keyOf c)
      rw [hid, hrowid]
      exact hcell
  rcases hc with ⟨old, hlook, hbranch⟩ | ⟨hlook, hst2⟩
  · rcases hbranch with ⟨r, hcl, hst2⟩ | ⟨_, hst2⟩
    · rw [hst2]
      have hold := hm.1 (keyOf c, old) (lookupAssoc_mem hlook)
      have h1 := H1 old (fmtOf c) r hcl
      exact ⟨updateAssoc_entries hm.1 (hentry r h1.1 (h1.2 hold.2.2 hnf)),
        updateAssoc_keys_nodup hm.2⟩
    · rw [hst2]
      exact hm
  · rw [hst2]
    exact ⟨updateAssoc_entries hm.1 (hentry _ rfl
      (noneFreeRow_set_changes hnf (by rfl))), updateAssoc_keys_nodup hm.2⟩

theorem merge_untouched {classify : Row → Row → Row × ChangeKind} :
    ∀ (cs : List RawComment) (st st2 : List (Int × Row) × Nat × Nat) (k : Int),
      (∀ c ∈ cs, GoodC c) → (∀ c ∈ cs, keyOf c ≠ k) →
      List.foldlM (dailyStep classify) st cs = .ok st2 →
      lookupAssoc st2.1 k = lookupAssoc st.1 k := by
  intro cs
  induction cs with
  | nil =>
    intro st st2 k _ _ h
    simp only [List.foldlM_nil] at h
    rw [← Except.ok.inj h]
  | cons c rest ih =>
    intro st st2 k hg hk h
    rw [foldlM_cons_except] at h
    rw [except_bind_ok] at h
    obtain ⟨st1, h1, h2⟩ := h
    have hstep : lookupAssoc st1.1 k = lookupAssoc st.1 k := by
      obtain ⟨v, hv, hcid0, _, hfmt, _⟩ := GoodC_elim (hg c (List.mem_cons_self c rest))
      obtain ⟨v2, cid, row, hv2, hcid2, hrow2, hc⟩ := dailyStep_cases classify st st1 c h1
      obtain rfl : v = v2 := by rw [hv] at hv2; exact Option.some.inj hv2
      obtain rfl : cid = keyOf c := by
        rw [hcid0] at hcid2
        exact (Except.ok.inj hcid2).symm
      have hne : k ≠ keyOf c := fun he => hk c (List.mem_cons_self c rest) he.symm
      rcases hc with ⟨old, hlook, hbranch⟩ | ⟨hlook, hst1⟩
      · rcases hbranch with ⟨r, hcl, hst1⟩ | ⟨_, hst1⟩
        · rw [hst1]
          exact lookupAssoc_updateAssoc_ne r hne
        · rw [hst1]
      · rw [hst1]
        exact lookupAssoc_updateAssoc_ne _ hne
    rw [← hstep]
    exact ih st1 st2 k (fun d hd => hg d (List.mem_cons_of_mem _ hd))
      (fun d hd => hk d (List.mem_cons_of_mem _ hd)) h2

/-- After the merge, the entry stored under a processed comment's key agrees
with its formatted row on all compared fields. -/
def processedWith (agree : Row → Row → Prop) (m : List (Int × Row)) (c : RawComment) : Prop :=
  ∃ r, lookupAssoc m (keyOf c) = some r ∧ agree r (fmtOf c) ∧ noneFreeRow r = true

theorem merge_processed {classify : Row → Row → Row × ChangeKind} {agree : Row → Row → Prop}
    (H1 : ∀ old row r, classify old row = (r, ChangeKind.updated) →
      agree r row ∧ r.comment_id = row.comment_id ∧
      (noneFreeRow old = true → noneFreeRow row = true → noneFreeRow r = true))
    (H2 : ∀ old row, (classify old row).2 ≠ ChangeKind.updated → agree old row)
    (H3 : ∀ (row : Row) (v : PyVal), agree { row with changes := v } row) :
    ∀ (cs : List RawComment) (st st2 : List (Int × Row) × Nat × Nat),
      (∀ c ∈ cs, GoodC c) → ((cs.map keyOf).Nodup) →
      ((∀ p ∈ st.1, entryOkC6 p) ∧ (st.1.map Prod.fst).Nodup) →
      List.foldlM (dailyStep classify) st cs = .ok st2 →
      ∀ c ∈ cs, processedWith agree st2.1 c := by
  intro cs
  induction cs with
  | nil => intro st st2 _ _ _ _ c hc; exact absurd hc (List.not_mem_nil c)
  | cons c rest ih =>
    intro st st2 hg hnd hinv h d hd
    rw [foldlM_cons_except] at h
    rw [except_bind_ok] at h
    obtain ⟨st1, h1, h2⟩ := h
    have hinv1 := dailyStepC6_inv (fun old row r hcl => (H1 old row r hcl).2)
      (hg c (List.mem_cons_self c rest)) hinv h1
    rcases List.mem_cons.mp hd with rfl | hd2
    · obtain ⟨v, hv, hcid0, hcell, hfmt, hnf⟩ := GoodC_elim (hg d (List.mem_cons_self d rest))
      obtain ⟨v2, cid, row, hv2, hcid2, hrow2, hc⟩ := dailyStep_cases classify st st1 d h1
      obtain rfl : v = v2 := by rw [hv] at hv2; exact Option.some.inj hv2
      obtain rfl : cid = keyOf d := by
        rw [hcid0] at hcid2
        exact (Except.ok.inj hcid2).symm
      obtain rfl : row = fmtOf d := by
        rw [hfmt] at hrow2
        exact (Except.ok.inj hrow2).symm
      have hst1entry : processedWith agree st1.1 d := by
        rcases hc with ⟨old, hlook, hbranch⟩ | ⟨hlook, hst1⟩
        · have hold := hinv.1 (keyOf d, old) (lookupAssoc_mem hlook)
          rcases hbranch with ⟨r, hcl, hst1⟩ | ⟨hnu, hst1⟩
          · refine ⟨r, ?_, (H1 old (fmtOf d) r hcl).1,
              (H1 old (fmtOf d) r hcl).2.2 hold.2.2 hnf⟩
            rw [hst1]
            exact lookupAssoc_updateAssoc_self st.1 (keyOf d) r
          · refine ⟨old, ?_, H2 old (fmtOf d) hnu, hold.2.2⟩
            rw [hst1]
            exact hlook
        · refine ⟨{ fmtOf d with changes := PyVal.str "NEW" }, ?_, H3 (fmtOf d) _,
            noneFreeRow_set_changes hnf (by rfl)⟩
          rw [hst1]
          exact lookupAssoc_updateAssoc_self st.1 (keyOf d) _
      obtain ⟨r, hlook1, hag, hnfr⟩ := hst1entry
      refine ⟨r, ?_, hag, hnfr⟩
      rw [merge_untouched rest st1 st2 (keyOf d)
        (fun e he => hg e (List.mem_cons_of_mem _ he)) ?_ h2]
      · exact hlook1
      · intro e he hke
        rw [List.map_cons, List.nodup_cons] at hnd
        apply hnd.1
        rw [← hke]
        exact List.mem_map_of_mem keyOf he
    · rw [List.map_cons, List.nodup_cons] at hnd
      exact ih st1 st2 (fun e he => hg e (List.mem_cons_of_mem _ he)) hnd.2 hinv1 h2 d hd2

theorem dailyStep_eval_unchanged (classify : Row → Row → Row × ChangeKind)
    (st : List (Int × Row) × Nat × Nat) (c : RawComment) (v : PyVal) (r : Row)
    (hv : c.comment_id = some v) (hcid : pyToInt v = .ok (keyOf c))
    (hrow : format_row c = .ok (fmtOf c)) (hlook : lookupAssoc st.1 (keyOf c) = some r)
    (hcl : classify r (fmtOf c) = (r, ChangeKind.unchanged)) :
    dailyStep classify st c = .ok st := by
  unfold dailyStep
  rw [hv]
  show (pyToInt v >>= fun cid => format_row c >>= fun row =>
    (match lookupAssoc st.1 cid with
     | some old =>
       match classify old row with
       | (r2, .updated) => pure (updateAssoc st.1 cid r2, st.2.1, st.2.2 + 1)
       | (_, _) => pure st
     | Option.none =>
       pure (updateAssoc st.1 cid { row with changes := PyVal.str "NEW" },
         st.2.1 + 1, st.2.2))) = _
  rw [hcid]
  show (format_row c >>= fun row =>
    (match lookupAssoc st.1 (keyOf c) with
     | some old =>
       match classify old row with
       | (r2, .updated) => pure (updateAssoc st.1 (keyOf c) r2, st.2.1, st.2.2 + 1)
       | (_, _) => pure st
     | Option.none =>
       pure (updateAssoc st.1 (keyOf c) { row with changes := PyVal.str "NEW" },
         st.2.1 + 1, st.2.2))) = _
  rw [hrow]
  show (match lookupAssoc st.1 (keyOf c) with
     | some old =>
       match classify old (fmtOf c) with
       | (r2, .updated) => pure (updateAssoc st.1 (keyOf c) r2, st.2.1, st.2.2 + 1)
       | (_, _) => pure st
     | Option.none =>
       pure (updateAssoc st.1 (keyOf c) { fmtOf c with changes := PyVal.str "NEW" },
         st.2.1 + 1, st.2.2)) = _
  rw [hlook]
  show (match classify r (fmtOf c) with
     | (r2, .updated) => pure (updateAssoc st.1 (keyOf c) r2, st.2.1, st.2.2 + 1)
     | (_, _) => pure st) = _
  rw [hcl]
  rfl

theorem merge_run2 {classify : Row → Row → Row × ChangeKind} {agree : Row → Row → Prop}
    (H4 : ∀ old row, agree old row → classify old row = (old, ChangeKind.unchanged)) :
    ∀ (cs : List RawComment) (st : List (Int × Row) × Nat × Nat),
      (∀ c ∈ cs, GoodC c) →
      (∀ c ∈ cs, ∃ r, lookupAssoc st.1 (keyOf c) = some r ∧ agree r (fmtOf c)) →
      List.foldlM (dailyStep classify) st cs = .ok st := by
  intro cs
  induction cs with
  | nil => intro st _ _; rfl
  | cons c rest ih =>
    intro st hg hlk
    rw [foldlM_cons_except]
    obtain ⟨v, hv, hcid, _, hfmt, _⟩ := GoodC_elim (hg c (List.mem_cons_self c rest))
    obtain ⟨r, hlook, hagree⟩ := hlk c (List.mem_cons_self c rest)
    rw [dailyStep_eval_unchanged classify st c v r hv hcid hfmt hlook
      (H4 r (fmtOf c) hagree)]
    show List.foldlM (dailyStep classify) st rest = .ok st
    exact ih st (fun e he => hg e (List.mem_cons_of_mem _ he))
      (fun e he => hlk e (List.mem_cons_of_mem _ he))

theorem loadStep_written {init : List (Int × Row)} {p : Int × Row}
    (hp : entryOkC6 p) (hfresh : p.1 ∉ init.map Prod.fst) :
    loadStep init (toStrRow p.2) = .ok (init ++ [(p.1, toStrRow p.2)]) := by
  unfold loadStep
  have hcell : pyToInt (getField (toStrRow p.2) .comment_id) = .ok p.1 := by
    rw [getField_toStrRow]
    show (match pyIntParse (cellOf (getField p.2 .comment_id)) with
      | some i => (Except.ok i : Except String Int)
      | Option.none => Except.error "ValueError") = _
    rw [hp.2.1]
  rw [hcell]
  show Except.ok (updateAssoc init p.1 (toStrRow p.2)) = _
  rw [updateAssoc_of_not_mem _ hfresh]

theorem loadAllRows_written :
    ∀ (m init : List (Int × Row)), (∀ p ∈ m, entryOkC6 p) →
      ((init.map Prod.fst ++ m.map Prod.fst).Nodup) →
      List.foldlM loadStep init (m.map (fun p => toStrRow p.2)) =
        .ok (init ++ m.map (fun p => (p.1, toStrRow p.2))) := by
  intro m
  induction m with
  | nil =>
    intro init _ _
    simp only [List.map_nil, List.foldlM_nil, List.append_nil]
    rfl
  | cons p rest ih =>
    intro init hok hnd
    rw [List.map_cons, foldlM_cons_except]
    have hfresh : p.1 ∉ init.map Prod.fst := by
      rw [List.map_cons] at hnd
      rw [List.nodup_append] at hnd
      intro hmem
      exact hnd.2.2 hmem (List.mem_cons_self _ _)
    rw [loadStep_written (hok p (List.mem_cons_self p rest)) hfresh]
    show List.foldlM loadStep (init ++ [(p.1, toStrRow p.2)]) (rest.map (fun p => toStrRow p.2)) = _
    rw [ih (init ++ [(p.1, toStrRow p.2)])
      (fun q hq => hok q (List.mem_cons_of_mem _ hq)) ?_]
    · rw [List.map_cons, List.append_assoc]
      rfl
    · rw [List.map_append, List.append_assoc]
      rw [List.map_cons] at hnd
      show (init.map Prod.fst ++ ([(p.1, toStrRow p.2)].map Prod.fst ++
        rest.map Prod.fst)).Nodup
      rw [show ([(p.1, toStrRow p.2)].map Prod.fst) = [p.1] from rfl]
      exact hnd

theorem lookupAssoc_map_toStr (m : List (Int × Row)) (k : Int) :
    lookupAssoc (m.map (fun p => (p.1, toStrRow p.2))) k =
      (lookupAssoc m k).map toStrRow := by
  induction m with
  | nil => rfl
  | cons p rest ih =>
    rw [List.map_cons]
    show (if k = p.1 then some (toStrRow p.2) else
      lookupAssoc (rest.map (fun p => (p.1, toStrRow p.2))) k) = _
    by_cases hk : k = p.1
    · rw [if_pos hk]
      show _ = (if k = p.1 then some p.2 else lookupAssoc rest k).map toStrRow
      rw [if_pos hk]
      rfl
    · rw [if_neg hk]
      show _ = (if k = p.1 then some p.2 else lookupAssoc rest k).map toStrRow
      rw [if_neg hk]
      exact ih

theorem loadAllRows_invC6 {file : List Row} {m : List (Int × Row)}
    (hfile : ∀ r ∈ file, strRowB r = true) (h : loadAllRows file = .ok m) :
    (∀ p ∈ m, entryOkC6 p) ∧ (m.map Prod.fst).Nodup := by
  unfold loadAllRows at h
  refine foldlM_inv (P := fun m2 => (∀ p ∈ m2, entryOkC6 p) ∧ (m2.map Prod.fst).Nodup)
    file [] m ?_ ⟨fun p hp => absurd hp (List.not_mem_nil p), List.nodup_nil⟩ h
  intro t a t2 ht ha hstep
  unfold loadStep at hstep
  rw [except_bind_ok] at hstep
  obtain ⟨k, hk, hp⟩ := hstep
  have hpe : Except.ok (updateAssoc t k a) = Except.ok t2 := hp
  have he : updateAssoc t k a = t2 := Except.ok.inj hpe
  rw [← he]
  have hstr := hfile a ha
  have hcellv : ∃ s, getField a .comment_id = PyVal.str s := by
    have := hstr
    unfold strRowB at this
    rw [List.all_eq_true] at this
    have h2 := this Col.comment_id (col_mem_field_names _)
    cases hv : getField a Col.comment_id <;> rw [hv] at h2
    · exact absurd h2 (by decide)
    · exact absurd h2 (by simp [isStrVal])
    · exact ⟨_, rfl⟩
    · exact absurd h2 (by simp [isStrVal])
  obtain ⟨s, hs⟩ := hcellv
  refine ⟨updateAssoc_entries ht.1 ⟨hk, ?_, strRowB_noneFree hstr⟩,
    updateAssoc_keys_nodup ht.2⟩
  show pyIntParse (cellOf (getField a .comment_id)) = some k
  rw [hs]
  show pyIntParse s = some k
  rw [hs] at hk
  exact pyToInt_str_parse hk

theorem isNoneVal_of_ne {v : PyVal} (h : v ≠ PyVal.none) : isNoneVal v = false := by
  cases v with
  | none => exact absurd rfl h
  | int i => rfl
  | str s => rfl
  | bool b => rfl

theorem agreeV1_set_changes (row : Row) (v : PyVal) : agreeV1 { row with changes := v } row := by
  intro k hk
  rw [getField_set_changes row v (fun he => absurd (he ▸ hk) (by decide))]

theorem agreeV2_set_changes (row : Row) (v : PyVal) : agreeV2 { row with changes := v } row := by
  refine ⟨rfl, ?_⟩
  intro k hk
  rw [getField_set_changes row v (fun he => absurd (he ▸ hk) (by decide))]

theorem agreeV2_refl (row : Row) : agreeV2 row row := ⟨rfl, fun _ _ => rfl⟩

theorem H1V1 : ∀ old row r, classifyV1 old row = (r, ChangeKind.updated) →
    agreeV1 r row ∧ r.comment_id = row.comment_id ∧
    (noneFreeRow old = true → noneFreeRow row = true → noneFreeRow r = true) := by
  intro old row r hcl
  have hs := classifyV1_updated_shape hcl
  rw [hs]
  exact ⟨agreeV1_set_changes row _, rfl,
    fun _ hr => noneFreeRow_set_changes hr (by rfl)⟩

theorem H1V2 : ∀ old row r, classifyV2 old row = (r, ChangeKind.updated) →
    agreeV2 r row ∧ r.comment_id = row.comment_id ∧
    (noneFreeRow old = true → noneFreeRow row = true → noneFreeRow r = true) := by
  intro old row r hcl
  rcases classifyV2_updated_shape hcl with hs | hs
  · rw [hs]
    refine ⟨agreeV2_set_changes row _, rfl, fun ho hr => ?_⟩
    exact noneFreeRow_set_changes hr (isNoneVal_of_ne (noneFreeRow_getField ho Col.content))
  · rw [hs]
    exact ⟨agreeV2_refl row, rfl, fun _ hr => hr⟩

theorem agreeV1_toStr {r b : Row} (hn : noneFreeRow r = true) (h : agreeV1 r b) :
    agreeV1 (toStrRow r) b := by
  intro k hk
  rw [pyStrOf_toStrRow hn k]
  exact h k hk

theorem agreeV2_toStr {r b : Row} (hn : noneFreeRow r = true)
    (hb : ∃ s, getField b .content = PyVal.str s) (h : agreeV2 r b) :
    agreeV2 (toStrRow r) b := by
  obtain ⟨s, hs⟩ := hb
  refine ⟨?_, ?_⟩
  · rw [getField_toStrRow, h.1, hs]
    rfl
  · intro k hk
    rw [pyStrOf_toStrRow hn k]
    exact h.2 k hk

/-- C6 (amended): running the daily sync a second time against the same
upstream record list yields the identical store and zero New/Updated
classifications — in either variant — PROVIDED upstream behaves well: each
fetched record formats without error, carries a usable id whose CSV cell
re-parses to the same key, has no `None`-valued formatted field (a `None`
round-trips through the CSV as an empty cell but re-compares as the string
"None"), and no two fetched records share a comment id.  The counterexample
shows the `None`-field proviso is necessary. -/
theorem claim6_amended (file : List Row) (cs : List RawComment)
    (hfile : ∀ r ∈ file, strRowB r = true)
    (hgood : ∀ c ∈ cs, GoodC c)
    (hnodup : (cs.map keyOf).Nodup) :
    (∀ out (n u : Nat), dailySyncV1 file cs = .ok (out, n, u) →
      dailySyncV1 out cs = .ok (out, 0, 0)) ∧
    (∀ out (n u : Nat), dailySyncV2 file cs = .ok (out, n, u) →
      dailySyncV2 out cs = .ok (out, 0, 0)) := by
  constructor
  · intro out n u h
    unfold dailySyncV1 at h
    rw [except_bind_ok] at h
    obtain ⟨rows0, hload, h⟩ := h
    rw [except_bind_ok] at h
    obtain ⟨st, hmerge, hp⟩ := h
    have hpe : Except.ok (st.1.map (fun e => toStrRow e.2), st.2.1, st.2.2) =
      Except.ok (out, n, u) := hp
    have hout : st.1.map (fun e => toStrRow e.2) = out :=
      congrArg Prod.fst (Except.ok.inj hpe)
    have hinv0 := loadAllRows_invC6 hfile hload
    have hmergef : List.foldlM (dailyStep classifyV1) (rows0, 0, 0) cs = .ok st := hmerge
    have hinvm : (∀ p ∈ st.1, entryOkC6 p) ∧ (st.1.map Prod.fst).Nodup :=
      foldlM_inv (P := fun s => (∀ p ∈ s.1, entryOkC6 p) ∧ (s.1.map Prod.fst).Nodup)
        cs (rows0, 0, 0) st
        (fun t a t2 ht ha hstep =>
          dailyStepC6_inv (fun o w r hcl => (H1V1 o w r hcl).2) (hgood a ha) ht hstep)
        hinv0 hmergef
    have hproc := merge_processed H1V1
      (fun o w => classifyV1_not_updated_agree) (fun w v => agreeV1_set_changes w v)
      cs (rows0, 0, 0) st hgood hnodup hinv0 hmergef
    have hload2 : loadAllRows out = .ok (st.1.map (fun p => (p.1, toStrRow p.2))) := by
      rw [← hout]
      show List.foldlM loadStep [] (st.1.map (fun e => toStrRow e.2)) = _
      have := loadAllRows_written st.1 [] hinvm.1 (by
        rw [List.map_nil, List.nil_append]
        exact hinvm.2)
      rw [this]
      rfl
    have hmerge2 : List.foldlM (dailyStep classifyV1)
        ((st.1.map (fun p => (p.1, toStrRow p.2)), 0, 0) :
          List (Int × Row) × Nat × Nat) cs =
        .ok (st.1.map (fun p => (p.1, toStrRow p.2)), 0, 0) := by
      refine merge_run2 (fun o w => classifyV1_of_agree) cs _ hgood ?_
      intro c hc
      obtain ⟨r, hlk, hag, hnf⟩ := hproc c hc
      refine ⟨toStrRow r, ?_, agreeV1_toStr hnf hag⟩
      show lookupAssoc (st.1.map (fun p => (p.1, toStrRow p.2))) (keyOf c) = _
      rw [lookupAssoc_map_toStr, hlk]
      rfl
    show (loadAllRows out >>= fun rows1 =>
      dailyMerge classifyV1 rows1 cs >>= fun st2 =>
        pure (st2.1.map (fun e => toStrRow e.2), st2.2.1, st2.2.2)) = _
    rw [hload2]
    show (dailyMerge classifyV1 (st.1.map (fun p => (p.1, toStrRow p.2))) cs >>=
      fun st2 => pure (st2.1.map (fun e => toStrRow e.2), st2.2.1, st2.2.2)) = _
    rw [show dailyMerge classifyV1 (st.1.map (fun p => (p.1, toStrRow p.2))) cs =
      .ok (st.1.map (fun p => (p.1, toStrRow p.2)), 0, 0) from hmerge2]
    show Except.ok ((st.1.map (fun p => (p.1, toStrRow p.2))).map
      (fun e => toStrRow e.2), 0, 0) = Except.ok (out, 0, 0)
    rw [List.map_map]
    rw [show ((fun e : Int × Row => toStrRow e.2) ∘ fun p : Int × Row =>
      (p.1, toStrRow p.2)) = fun p : Int × Row => toStrRow (toStrRow p.2) from rfl]
    rw [show (fun p : Int × Row => toStrRow (toStrRow p.2)) =
      fun p : Int × Row => toStrRow p.2 from funext (fun p => toStrRow_idem p.2)]
    rw [hout]
  · intro out n u h
    unfold dailySyncV2 at h
    rw [except_bind_ok] at h
    obtain ⟨rows0, hload, h⟩ := h
    rw [except_bind_ok] at h
    obtain ⟨st, hmerge, hp⟩ := h
    have hpe : Except.ok (st.1.map (fun e => toStrRow e.2), st.2.1, st.2.2) =
      Except.ok (out, n, u) := hp
    have hout : st.1.map (fun e => toStrRow e.2) = out :=
      congrArg Prod.fst (Except.ok.inj hpe)
    have hinv0 := loadAllRows_invC6 hfile hload
    have hmergef : List.foldlM (dailyStep classifyV2) (rows0, 0, 0) cs = .ok st := hmerge
    have hinvm : (∀ p ∈ st.1, entryOkC6 p) ∧ (st.1.map Prod.fst).Nodup :=
      foldlM_inv (P := fun s => (∀ p ∈ s.1, entryOkC6 p) ∧ (s.1.map Prod.fst).Nodup)
        cs (rows0, 0, 0) st
        (fun t a t2 ht ha hstep =>
          dailyStepC6_inv (fun o w r hcl => (H1V2 o w r hcl).2) (hgood a ha) ht hstep)
        hinv0 hmergef
    have hproc := merge_processed H1V2
      (fun o w => classifyV2_not_updated_agree) (fun w v => agreeV2_set_changes w v)
      cs (rows0, 0, 0) st hgood hnodup hinv0 hmergef
    have hload2 : loadAllRows out = .ok (st.1.map (fun p => (p.1, toStrRow p.2))) := by
      rw [← hout]
      show List.foldlM loadStep [] (st.1.map (fun e => toStrRow e.2)) = _
      have := loadAllRows_written st.1 [] hinvm.1 (by
        rw [List.map_nil, List.nil_append]
        exact hinvm.2)
      rw [this]
      rfl
    have hmerge2 : List.foldlM (dailyStep classifyV2)
        ((st.1.map (fun p => (p.1, toStrRow p.2)), 0, 0) :
          List (Int × Row) × Nat × Nat) cs =
        .ok (st.1.map (fun p => (p.1, toStrRow p.2)), 0, 0) := by
      refine merge_run2 (fun o w => classifyV2_of_agree) cs _ hgood ?_
      intro c hc
      obtain ⟨r, hlk, hag, hnf⟩ := hproc c hc
      obtain ⟨v, hv, _, _, hfmt, _⟩ := GoodC_elim (hgood c hc)
      refine ⟨toStrRow r, ?_, agreeV2_toStr hnf ⟨(format_row_fields hfmt).2.2.choose,
        (format_row_fields hfmt).2.2.choose_spec⟩ hag⟩
      show lookupAssoc (st.1.map (fun p => (p.1, toStrRow p.2))) (keyOf c) = _
      rw [lookupAssoc_map_toStr, hlk]
      rfl
    show (loadAllRows out >>= fun rows1 =>
      dailyMerge classifyV2 rows1 cs >>= fun st2 =>
        pure (st2.1.map (fun e => toStrRow e.2), st2.2.1, st2.2.2)) = _
    rw [hload2]
    show (dailyMerge classifyV2 (st.1.map (fun p => (p.1, toStrRow p.2))) cs >>=
      fun st2 => pure (st2.1.map (fun e => toStrRow e.2), st2.2.1, st2.2.2)) = _
    rw [show dailyMerge classifyV2 (st.1.map (fun p => (p.1, toStrRow p.2))) cs =
      .ok (st.1.map (fun p => (p.1, toStrRow p.2)), 0, 0) from hmerge2]
    show Except.ok ((st.1.map (fun p => (p.1, toStrRow p.2))).map
      (fun e => toStrRow e.2), 0, 0) = Except.ok (out, 0, 0)
    rw [List.map_map]
    rw [show ((fun e : Int × Row => toStrRow e.2) ∘ fun p : Int × Row =>
      (p.1, toStrRow p.2)) = fun p : Int × Row => toStrRow (toStrRow p.2) from rfl]
    rw [show (fun p : Int × Row => toStrRow (toStrRow p.2)) =
      fun p : Int × Row => toStrRow p.2 from funext (fun p => toStrRow_idem p.2)]
    rw [hout]

/-- A raw comment exactly like `rawA` but with `user_vote_type` absent from
the upstream JSON (so `format_row` stores Python `None` in that field). -/
def rawC6 : RawComment := { rawA with user_vote_type := Option.none }

/-- The store after daily-syncing `rawC6` into an empty store. -/
def fileC6 : List Row :=
  match dailySyncV1 [] [rawC6] with
  | .ok (f, _, _) => f
  | .error _ => []

/-- C6 counterexample: an upstream record with an absent (`None`)
`user_vote_type` breaks idempotence.  The first run stores it as NEW; its
`None` is written to the CSV as an empty cell, but on the second run the
refetched record's field renders as the string "None", so the comparison
`'' != 'None'` classifies the SAME record Updated: the second run reports
one Updated (not zero) and commits a different store (the change_marker now
reads "user_vote_type" instead of "NEW"). -/
theorem claim6_counterexample :
    dailySyncV1 [] [rawC6] = .ok (fileC6, 1, 0) ∧
    (dailySyncV1 fileC6 [rawC6]).map (fun p => p.2) = .ok ((0 : Nat), (1 : Nat)) ∧
    (dailySyncV1 fileC6 [rawC6]).map (fun p => p.1) ≠ .ok fileC6 := by
  refine ⟨by decide, by decide, by decide⟩

theorem GoodC_rawA : GoodC rawA := by
  refine ⟨by decide, by decide, ?_⟩
  show noneFreeRow rowA = true
  decide

/-- C6 witness: for the well-behaved record `rawA` the daily sync is
idempotent — the second run returns the same store with zero New and zero
Updated. -/
theorem claim6_witness : dailySyncV1 fileW [rawA] = .ok (fileW, 0, 0) :=
  (claim6_amended [] [rawA] (fun r hr => absurd hr (List.not_mem_nil r))
    (fun c hc => by rw [List.mem_singleton] at hc; subst hc; exact GoodC_rawA)
    (by decide)).1 fileW 1 0 (by decide)
